import Mathlib

/-!
Verification of the bomberman authoritative game engine and wire protocol.

The definitions below are a shallow embedding of the Go sources:
`internal/game/types.go`, `internal/game/board.go`, `internal/game/engine.go`,
the bomb/explosion file (`placeBomb`, `tickBombs`, `explode`,
`damagePlayersInFire`, `clearExpiredFires`) and `internal/network/protocol.go`.

Embedding conventions:
- Go `int` is `Int`; `time.Time` / `time.Duration` are `Int` nanosecond
  timestamps (`t.After u` is `t > u`, `t.Before u` is `t < u`).
- `map[string]*Player` is an association list `List (String × Player)`;
  theorems that need key uniqueness assume it explicitly.  Mutation through
  the stored pointer is modelled by rewriting the matching entry.
- `[][]TileType` is `List (List Tile)` indexed as `board[y][x]`; all reads in
  the source are guarded by bounds checks against `Width`/`Height`.
- `map[int]bool` (the detonated set) is a `List Nat` of marked indices.
- Go map iteration order is unspecified; every operation modelled here is
  either order independent or iterated in a fixed order noted at the
  definition.
-/

namespace Bomberman

/-- `TileType` from types.go: Empty = 0, HardWall = 1, SoftWall = 2. -/
inductive Tile where
  | empty
  | hardWall
  | softWall
  deriving DecidableEq, Repr

/-- `Direction` from types.go. -/
inductive Direction where
  | up
  | down
  | left
  | right
  deriving DecidableEq, Repr

/-- `ActionType` from types.go. -/
inductive ActionType where
  | move
  | placeBomb
  deriving DecidableEq, Repr

/-- `Position` from types.go. -/
structure Position where
  x : Int
  y : Int
  deriving DecidableEq, Repr

/-- `Action` from types.go. -/
structure Action where
  playerID : String
  type : ActionType
  dir : Direction
  deriving DecidableEq, Repr

/-- `Player` from types.go. -/
structure Player where
  id : String
  name : String
  pos : Position
  alive : Bool
  bombMax : Int
  bombRange : Int
  bombsUsed : Int
  color : Int
  deriving DecidableEq, Repr

/-- `Bomb` from types.go. -/
structure Bomb where
  ownerID : String
  pos : Position
  range : Int
  placedAt : Int
  expiresAt : Int
  deriving DecidableEq, Repr

/-- `Fire` from types.go. -/
structure Fire where
  pos : Position
  expiresAt : Int
  deriving DecidableEq, Repr

/-- `GameStatus` from types.go: Lobby = 0, Running = 1, Over = 2. -/
inductive GameStatus where
  | lobby
  | running
  | over
  deriving DecidableEq, Repr

/-- `GameState` from types.go.  The player map is an association list. -/
structure GameState where
  board : List (List Tile)
  players : List (String × Player)
  bombs : List Bomb
  fires : List Fire
  width : Int
  height : Int
  status : GameStatus
  winner : String
  deriving DecidableEq, Repr

/-- `GameConfig` from types.go.  Durations are nanoseconds; the soft-wall
density (a Go `float64` in `[0,1]`) is modelled as a rational. -/
structure GameConfig where
  width : Int
  height : Int
  bombTimer : Int
  fireDuration : Int
  tickRate : Int
  maxPlayers : Int
  softWallDensity : Rat
  deriving DecidableEq, Repr

/-- Read `board[p.Y][p.X]`; every read in the source is bounds-checked first,
so the defaults are never observed under the theorems' hypotheses. -/
def boardGet (b : List (List Tile)) (p : Position) : Tile :=
  (b.getD p.y.toNat []).getD p.x.toNat Tile.empty

/-- Write `board[p.Y][p.X] = t`. -/
def boardSet (b : List (List Tile)) (p : Position) (t : Tile) : List (List Tile) :=
  b.set p.y.toNat ((b.getD p.y.toNat []).set p.x.toNat t)

/-- Map lookup `e.State.Players[id]`. -/
def findPlayer (ps : List (String × Player)) (id : String) : Option Player :=
  (ps.find? (fun sp => sp.1 = id)).map (fun sp => sp.2)

/-- Mutation of the player struct reached through the map pointer. -/
def setPlayer (ps : List (String × Player)) (id : String) (p : Player) :
    List (String × Player) :=
  ps.map (fun sp => if sp.1 = id then (sp.1, p) else sp)

/-- `SpawnPositions` from types.go. -/
def SpawnPositions (width height : Int) : List Position :=
  [⟨1, 1⟩, ⟨width - 2, 1⟩, ⟨1, height - 2⟩, ⟨width - 2, height - 2⟩]

/-- `makeSafeSet` from board.go: each spawn corner plus its four orthogonal
neighbours must stay clear (membership models the Go set-map). -/
def makeSafeSet (spawns : List Position) : List Position :=
  spawns.foldr (fun sp acc =>
    sp :: ⟨sp.x + 1, sp.y⟩ :: ⟨sp.x, sp.y + 1⟩ :: ⟨sp.x - 1, sp.y⟩ :: ⟨sp.x, sp.y - 1⟩ :: acc) []

/-- `NewBoard` from board.go.  The first pass lays HardWall on the border and
on even/even interior pillars, Empty elsewhere; the second pass promotes each
eligible Empty interior cell outside the safe set to SoftWall when its random
draw is below the density.  The Go code consumes one `rand.Float64()` per
eligible cell in row-major order, so the stream is modelled as the per-cell
oracle `draw`. -/
def NewBoard (cfg : GameConfig) (draw : Position → Rat) : List (List Tile) :=
  let safeSet := makeSafeSet (SpawnPositions cfg.width cfg.height)
  (List.range cfg.height.toNat).map fun (yn : Nat) =>
    (List.range cfg.width.toNat).map fun (xn : Nat) =>
      let x : Int := (xn : Int)
      let y : Int := (yn : Int)
      let base : Tile :=
        if x = 0 ∨ y = 0 ∨ x = cfg.width - 1 ∨ y = cfg.height - 1 then Tile.hardWall
        else if x % 2 = 0 ∧ y % 2 = 0 then Tile.hardWall
        else Tile.empty
      if 1 ≤ x ∧ x ≤ cfg.width - 2 ∧ 1 ≤ y ∧ y ≤ cfg.height - 2
          ∧ base = Tile.empty
          ∧ ¬ (⟨x, y⟩ : Position) ∈ safeSet
          ∧ draw ⟨x, y⟩ < cfg.softWallDensity
      then Tile.softWall else base

/-- The candidate cell computed by the `switch dir` in `movePlayer`. -/
def stepPos (p : Position) : Direction → Position
  | Direction.up => ⟨p.x, p.y - 1⟩
  | Direction.down => ⟨p.x, p.y + 1⟩
  | Direction.left => ⟨p.x - 1, p.y⟩
  | Direction.right => ⟨p.x + 1, p.y⟩

/-- `movePlayer` from board.go: bounds check, wall collision, bomb collision,
then the move; walking onto a fire tile kills the player. -/
def movePlayer (st : GameState) (playerID : String) (dir : Direction) : GameState :=
  match findPlayer st.players playerID with
  | none => st
  | some p =>
    if !p.alive then st
    else
      let newPos := stepPos p.pos dir
      if newPos.x < 0 ∨ newPos.x ≥ st.width ∨ newPos.y < 0 ∨ newPos.y ≥ st.height then st
      else
        let tile := boardGet st.board newPos
        if tile = Tile.hardWall ∨ tile = Tile.softWall then st
        else if st.bombs.any (fun b => b.pos = newPos) then st
        else
          let p1 := { p with pos := newPos }
          let p2 := if st.fires.any (fun f => f.pos = newPos) then { p1 with alive := false } else p1
          { st with players := setPlayer st.players playerID p2 }

/-- `placeBomb`: reject when absent or dead, at bomb limit, or when a bomb
already occupies the player's tile; otherwise append the bomb and increment
the owner's counter.  `now` is the tick's `time.Now()`. -/
def placeBomb (cfg : GameConfig) (now : Int) (st : GameState) (playerID : String) :
    GameState :=
  match findPlayer st.players playerID with
  | none => st
  | some p =>
    if !p.alive then st
    else if p.bombsUsed ≥ p.bombMax then st
    else if st.bombs.any (fun b => b.pos = p.pos) then st
    else
      { st with
        bombs := st.bombs ++ [{ ownerID := playerID, pos := p.pos, range := p.bombRange,
                                placedAt := now, expiresAt := now + cfg.bombTimer }],
        players := setPlayer st.players playerID { p with bombsUsed := p.bombsUsed + 1 } }

/-- The distinct error returns of `AddPlayer` and `StartGame` in engine.go. -/
inductive EngineError where
  | gameAlreadyInProgress
  | gameFull
  | playerExists
  | needAtLeastOnePlayer
  deriving DecidableEq, Repr

/-- `AddPlayer` from engine.go.  Note the source rejects only when the status
is Running (not when it is Over), and indexes the spawn corner by the current
player-count modulo the number of corners. -/
def AddPlayer (cfg : GameConfig) (st : GameState) (id name : String) :
    Except EngineError GameState :=
  if st.status = GameStatus.running then Except.error EngineError.gameAlreadyInProgress
  else if (st.players.length : Int) ≥ cfg.maxPlayers then Except.error EngineError.gameFull
  else if (findPlayer st.players id).isSome then Except.error EngineError.playerExists
  else
    let spawns := SpawnPositions cfg.width cfg.height
    let spawnIdx :=
      if st.players.length ≥ spawns.length then st.players.length % spawns.length
      else st.players.length
    Except.ok
      { st with players := st.players ++
          [(id, { id := id, name := name, pos := spawns.getD spawnIdx ⟨0, 0⟩,
                  alive := true, bombMax := 1, bombRange := 2, bombsUsed := 0,
                  color := (spawnIdx : Int) })] }

/-- `StartGame` from engine.go: the only guard in the source is the player
count; the current status is not inspected. -/
def StartGame (st : GameState) : Except EngineError GameState :=
  if st.players.length < 1 then Except.error EngineError.needAtLeastOnePlayer
  else Except.ok { st with status := GameStatus.running }

/-- `checkWinCondition` from engine.go.  `alive[0]` is order independent
because the case applies only when exactly one player is alive. -/
def checkWinCondition (st : GameState) : GameState :=
  if st.status ≠ GameStatus.running then st
  else
    match (st.players.map (fun sp => sp.2)).filter (fun p => p.alive) with
    | [] => { st with status := GameStatus.over, winner := "" }
    | [p] =>
      if st.players.length > 1 then { st with status := GameStatus.over, winner := p.id }
      else st
    | _ => st

/-- `clearExpiredFires`: keep a fire while `now.Before(f.ExpiresAt)`. -/
def clearExpiredFires (now : Int) (st : GameState) : GameState :=
  { st with fires := st.fires.filter (fun f => now < f.expiresAt) }

/-- The `ActionMove` / `ActionPlaceBomb` dispatch of `drainActions`. -/
def processAction (cfg : GameConfig) (now : Int) (st : GameState) (a : Action) :
    GameState :=
  match a.type with
  | ActionType.move => movePlayer st a.playerID a.dir
  | ActionType.placeBomb => placeBomb cfg now st a.playerID

/-- `RemovePlayer` from engine.go: `delete(e.State.Players, id)`. -/
def RemovePlayer (st : GameState) (id : String) : GameState :=
  { st with players := st.players.filter (fun sp => sp.1 ≠ id) }

/-- Appending one fire tile, as `e.State.Fires = append(e.State.Fires, ...)`. -/
def addFire (st : GameState) (p : Position) (exp : Int) : GameState :=
  { st with fires := st.fires ++ [{ pos := p, expiresAt := exp }] }

/-- `damagePlayersInFire`: kill every alive player standing on any fire tile
(order independent, so the Go map iteration is modelled as a map). -/
def damagePlayersInFire (st : GameState) : GameState :=
  { st with players := st.players.map (fun sp =>
      if sp.2.alive = true ∧ st.fires.any (fun f => f.pos = sp.2.pos) = true
      then (sp.1, { sp.2 with alive := false }) else sp) }

/-- The chain-reaction loop inside `explode`: scan the (index, bomb) pairs of
the bomb list; any bomb sitting at `pos` and not yet marked detonated is
marked and exploded immediately via `chain`. -/
def chainAt (chain : Bomb → GameState × List Nat → GameState × List Nat)
    (pos : Position) : List (Nat × Bomb) → GameState × List Nat → GameState × List Nat
  | [], sd => sd
  | ib :: rest, (st, det) =>
    if ib.2.pos = pos ∧ ¬ ib.1 ∈ det then
      chainAt chain pos rest (chain ib.2 (st, ib.1 :: det))
    else
      chainAt chain pos rest (st, det)

/-- One direction of `explode`'s expansion: `k` steps remain, the next cell is
`c + dist·d`.  Stops outside the board or at a HardWall; destroys a SoftWall,
places fire there and stops; places fire on an Empty cell, runs the chain
loop there, and continues. -/
def walkDir (chain : Bomb → GameState × List Nat → GameState × List Nat)
    (c d : Position) (fe : Int) : Nat → Int → GameState × List Nat → GameState × List Nat
  | 0, _, sd => sd
  | k + 1, dist, (st, det) =>
    let pos : Position := ⟨c.x + d.x * dist, c.y + d.y * dist⟩
    if pos.x < 0 ∨ pos.x ≥ st.width ∨ pos.y < 0 ∨ pos.y ≥ st.height then (st, det)
    else if boardGet st.board pos = Tile.hardWall then (st, det)
    else if boardGet st.board pos = Tile.softWall then
      ({ st with board := boardSet st.board pos Tile.empty,
                 fires := st.fires ++ [{ pos := pos, expiresAt := fe }] }, det)
    else
      let sd1 := chainAt chain pos (addFire st pos fe).bombs.enum (addFire st pos fe, det)
      walkDir chain c d fe k (dist + 1) sd1

/-- `explode`, made total with a fuel argument: each recursive chain call is
preceded by marking a fresh index detonated, so any fuel exceeding the bomb
count makes the zero-fuel branch unreachable (tickBombs passes `len + 1`).
The source calls `time.Now()` again inside each nested explosion; the whole
resolution pass is modelled at the single instant `now`. -/
def explodeFuel : Nat → Int → Int → Bomb → GameState × List Nat → GameState × List Nat
  | 0, _, _, _, sd => sd
  | n + 1, now, fireDur, bomb, sd =>
    let fe := now + fireDur
    let sd1 := (addFire sd.1 bomb.pos fe, sd.2)
    let dirs : List Position := [⟨0, -1⟩, ⟨0, 1⟩, ⟨-1, 0⟩, ⟨1, 0⟩]
    let sd2 := dirs.foldl
      (fun sd d => walkDir (fun b s => explodeFuel n now fireDur b s) bomb.pos d fe
        bomb.range.toNat 1 sd) sd1
    (damagePlayersInFire sd2.1, sd2.2)

/-- One step of tickBombs' explosion loop: `e.explode(e.State.Bombs[i], detonated)`. -/
def detonateStep (now fireDur : Int) (sd : GameState × List Nat) (i : Nat) :
    GameState × List Nat :=
  match sd.1.bombs.get? i with
  | some b => explodeFuel (sd.1.bombs.length + 1) now fireDur b sd
  | none => sd

/-- One step of tickBombs' removal loop: a detonated bomb returns one unit of
capacity to its owner (if the owner is still in the map). -/
def removeStep (det1 : List Nat) (ps : List (String × Player)) (ib : Nat × Bomb) :
    List (String × Player) :=
  if ib.1 ∈ det1 then
    ps.map (fun sp => if sp.1 = ib.2.ownerID
      then (sp.1, { sp.2 with bombsUsed := sp.2.bombsUsed - 1 }) else sp)
  else ps

/-- `tickBombs`: collect the expired bombs, explode them (chains included),
then drop every detonated bomb and return its owner's bomb-count.  The Go
`for i := range detonated` map iteration is modelled as visiting the
initially-expired indices in increasing order; entries added during the
iteration (chained bombs) are the may-skip case of Go's map semantics, and
they have already been exploded by the chain when they are added. -/
def tickBombs (now fireDur : Int) (st : GameState) : GameState :=
  let det0 := (st.bombs.enum.filter (fun ib => now > ib.2.expiresAt)).map (fun ib => ib.1)
  let sd := det0.foldl (detonateStep now fireDur) (st, det0)
  let st1 : GameState := sd.1
  let det1 : List Nat := sd.2
  let players1 := st1.bombs.enum.foldl (removeStep det1) st1.players
  { st1 with
    bombs := (st1.bombs.enum.filter (fun ib => ¬ ib.1 ∈ det1)).map (fun ib => ib.2),
    players := players1 }

/-- One direction of explosion expansion as the spec words it: walk outward;
the first HardWall stops expansion with no fire placed; the first SoftWall is
converted to Empty, receives a fire tile, and stops expansion; every
intermediate Empty tile receives a fire tile and expansion continues.  Returns
the fired cells in walk order and the resulting board. -/
def expansionSpec (b : List (List Tile)) (c d : Position) :
    Nat → Int → List Position × List (List Tile)
  | 0, _ => ([], b)
  | k + 1, dist =>
    let pos : Position := ⟨c.x + d.x * dist, c.y + d.y * dist⟩
    match boardGet b pos with
    | Tile.hardWall => ([], b)
    | Tile.softWall => ([pos], boardSet b pos Tile.empty)
    | Tile.empty =>
      let r := expansionSpec b c d k (dist + 1)
      (pos :: r.1, r.2)

/-- `expansionSpec` over a sequence of directions, threading the board. -/
def expansionMulti (b : List (List Tile)) (c : Position) (range : Nat) :
    List Position → List Position × List (List Tile)
  | [] => ([], b)
  | d :: ds =>
    let e := expansionSpec b c d range 1
    let r := expansionMulti e.2 c range ds
    (e.1 ++ r.1, r.2)

/-- A whole chain-free explosion as the spec words it: fire at the center,
then the four cardinal expansions (up, down, left, right) up to `range`, then
every alive player standing on fire dies. -/
def explodeSpec (st : GameState) (bomb : Bomb) (fe : Int) : GameState :=
  let e := expansionMulti st.board bomb.pos bomb.range.toNat
    [⟨0, -1⟩, ⟨0, 1⟩, ⟨-1, 0⟩, ⟨1, 0⟩]
  damagePlayersInFire { st with
    board := e.2,
    fires := st.fires ++ { pos := bomb.pos, expiresAt := fe } ::
      (e.1.map (fun p => { pos := p, expiresAt := fe })) }

/-- The bombs-currently-placed counter of the (first) map entry for `id`. -/
def usedOf (ps : List (String × Player)) (id : String) : Option Int :=
  (ps.find? (fun sp => sp.1 = id)).map (fun sp => sp.2.bombsUsed)

/-- How many active bombs in `bs` are owned by `id`. -/
def ownedCount (bs : List Bomb) (id : String) : Nat :=
  bs.countP (fun b => decide (b.ownerID = id))

/-- Facts preserved by every operation of the explosion pass: the bomb list,
the board dimensions, and every player's placed-bomb counter. -/
def Preserves (sd sd' : GameState × List Nat) : Prop :=
  sd'.1.bombs = sd.1.bombs
  ∧ sd'.1.width = sd.1.width
  ∧ sd'.1.height = sd.1.height
  ∧ ∀ id, usedOf sd'.1.players id = usedOf sd.1.players id

/-- Reachable-state facts the chain-reaction argument relies on: the bomb
list is `B`, no two bombs share a tile (spec §7 declares two bombs on one
tile an unreachable internal invariant violation), and every bomb sits on an
Empty board cell. -/
def BombsWF (B : List Bomb) (st : GameState) : Prop :=
  st.bombs = B
  ∧ B.Pairwise (fun a b => a.pos ≠ b.pos)
  ∧ ∀ bb ∈ B, boardGet st.board bb.pos = Tile.empty

/-- The invariant carried across one operation of the explosion pass: bombs
unchanged, the detonated set only grows, Empty cells stay Empty, and fires
are only appended — with every appended fire avoiding the position of every
bomb left undetonated by the operation. -/
def StepOK (B : List Bomb) (sd sd' : GameState × List Nat) : Prop :=
  sd'.1.bombs = sd.1.bombs
  ∧ (∀ i, i ∈ sd.2 → i ∈ sd'.2)
  ∧ (∀ p, boardGet sd.1.board p = Tile.empty → boardGet sd'.1.board p = Tile.empty)
  ∧ (∃ new, sd'.1.fires = sd.1.fires ++ new
      ∧ ∀ f ∈ new, ∀ ib ∈ B.enum, ¬ ib.1 ∈ sd'.2 → f.pos ≠ ib.2.pos)

/-! ### Wire protocol (protocol.go)

The framing layer (`[4-byte big-endian length][body]`, 1 MiB cap) is modelled
at the byte level.  The body serialization is Go's `encoding/json`; the
repository's code never manipulates JSON text itself, so the library is
modelled at the level of JSON values: an `Envelope` is a JSON object
`{type, payload}`, each payload struct marshals to the JSON object its field
tags prescribe (including the `omitempty` omissions), and `time.Time` values
ride as their integer timestamps.  Go sorts map keys when marshalling, so the
player map marshals through a key sort. -/

/-- JSON values.  Go float64 payload fields are modelled as rationals, whose
shortest-round-trip decimal rendering `encoding/json` restores exactly. -/
inductive Json where
  | str (s : String)
  | int (n : Int)
  | rat (q : Rat)
  | bool (b : Bool)
  | null
  | arr (items : List Json)
  | obj (fields : List (String × Json))

/-- `JoinMsg` from protocol.go. -/
structure JoinMsg where
  name : String
  deriving DecidableEq, Repr

/-- `ActionMsg` from protocol.go; `direction` carries `omitempty`. -/
structure ActionMsg where
  actionType : ActionType
  direction : Direction
  deriving DecidableEq, Repr

/-- `WelcomeMsg` from protocol.go. -/
structure WelcomeMsg where
  playerID : String
  config : GameConfig
  deriving DecidableEq, Repr

/-- `StateMsg` from protocol.go. -/
structure StateMsg where
  state : GameState
  deriving DecidableEq, Repr

/-- `ErrorMsg` from protocol.go. -/
structure ErrorMsg where
  message : String
  deriving DecidableEq, Repr

/-- A typed message: the MsgType tag together with the payload the repository
pairs with it (`start` is sent with an empty struct payload). -/
inductive Msg where
  | join (m : JoinMsg)
  | welcome (m : WelcomeMsg)
  | action (m : ActionMsg)
  | state (m : StateMsg)
  | error (m : ErrorMsg)
  | start
  deriving DecidableEq, Repr

/-- The `MsgType` string constants. -/
def msgType : Msg → String
  | Msg.join _ => "join"
  | Msg.welcome _ => "welcome"
  | Msg.action _ => "action"
  | Msg.state _ => "state"
  | Msg.error _ => "error"
  | Msg.start => "start"

/-- JSON object field lookup (first match; marshalled objects have unique
keys). -/
def jlookup (fields : List (String × Json)) (key : String) : Option Json :=
  (fields.find? (fun kv => kv.1 = key)).map (fun kv => kv.2)

def strOfJson : Json → Option String
  | Json.str s => some s
  | _ => none

def intOfJson : Json → Option Int
  | Json.int n => some n
  | _ => none

def ratOfJson : Json → Option Rat
  | Json.rat q => some q
  | _ => none

def boolOfJson : Json → Option Bool
  | Json.bool b => some b
  | _ => none

def listOfJson {α : Type} (f : Json → Option α) : Json → Option (List α)
  | Json.arr items => items.mapM f
  | _ => none

/-- Enums marshal as their Go iota value.  (Go's decoder accepts any integer
into an enum-typed field; the model rejects out-of-range values, which the
encoder never emits.) -/
def tileToJson : Tile → Json
  | Tile.empty => Json.int 0
  | Tile.hardWall => Json.int 1
  | Tile.softWall => Json.int 2

def tileOfJson : Json → Option Tile
  | Json.int 0 => some Tile.empty
  | Json.int 1 => some Tile.hardWall
  | Json.int 2 => some Tile.softWall
  | _ => none

def directionToJson : Direction → Json
  | Direction.up => Json.int 0
  | Direction.down => Json.int 1
  | Direction.left => Json.int 2
  | Direction.right => Json.int 3

def directionOfJson : Json → Option Direction
  | Json.int 0 => some Direction.up
  | Json.int 1 => some Direction.down
  | Json.int 2 => some Direction.left
  | Json.int 3 => some Direction.right
  | _ => none

def actionTypeToJson : ActionType → Json
  | ActionType.move => Json.int 0
  | ActionType.placeBomb => Json.int 1

def actionTypeOfJson : Json → Option ActionType
  | Json.int 0 => some ActionType.move
  | Json.int 1 => some ActionType.placeBomb
  | _ => none

def statusToJson : GameStatus → Json
  | GameStatus.lobby => Json.int 0
  | GameStatus.running => Json.int 1
  | GameStatus.over => Json.int 2

def statusOfJson : Json → Option GameStatus
  | Json.int 0 => some GameStatus.lobby
  | Json.int 1 => some GameStatus.running
  | Json.int 2 => some GameStatus.over
  | _ => none

def positionToJson (p : Position) : Json :=
  Json.obj [("x", Json.int p.x), ("y", Json.int p.y)]

def positionOfJson (j : Json) : Option Position :=
  match j with
  | Json.obj fields => do
    let xj ← jlookup fields "x"
    let x ← intOfJson xj
    let yj ← jlookup fields "y"
    let y ← intOfJson yj
    pure { x := x, y := y }
  | _ => none

def playerToJson (p : Player) : Json :=
  Json.obj [("id", Json.str p.id), ("name", Json.str p.name),
    ("pos", positionToJson p.pos), ("alive", Json.bool p.alive),
    ("bomb_max", Json.int p.bombMax), ("bomb_range", Json.int p.bombRange),
    ("bombs_used", Json.int p.bombsUsed), ("color", Json.int p.color)]

def playerOfJson (j : Json) : Option Player :=
  match j with
  | Json.obj fields => do
    let id ← (jlookup fields "id").bind strOfJson
    let name ← (jlookup fields "name").bind strOfJson
    let pos ← (jlookup fields "pos").bind positionOfJson
    let alive ← (jlookup fields "alive").bind boolOfJson
    let bombMax ← (jlookup fields "bomb_max").bind intOfJson
    let bombRange ← (jlookup fields "bomb_range").bind intOfJson
    let bombsUsed ← (jlookup fields "bombs_used").bind intOfJson
    let color ← (jlookup fields "color").bind intOfJson
    pure { id := id, name := name, pos := pos, alive := alive, bombMax := bombMax,
           bombRange := bombRange, bombsUsed := bombsUsed, color := color }
  | _ => none

/-- Timestamps (`time.Time`) ride as their integer value. -/
def bombToJson (b : Bomb) : Json :=
  Json.obj [("owner_id", Json.str b.ownerID), ("pos", positionToJson b.pos),
    ("range", Json.int b.range), ("placed_at", Json.int b.placedAt),
    ("expires_at", Json.int b.expiresAt)]

def bombOfJson (j : Json) : Option Bomb :=
  match j with
  | Json.obj fields => do
    let ownerID ← (jlookup fields "owner_id").bind strOfJson
    let pos ← (jlookup fields "pos").bind positionOfJson
    let range ← (jlookup fields "range").bind intOfJson
    let placedAt ← (jlookup fields "placed_at").bind intOfJson
    let expiresAt ← (jlookup fields "expires_at").bind intOfJson
    pure { ownerID := ownerID, pos := pos, range := range, placedAt := placedAt,
           expiresAt := expiresAt }
  | _ => none

def fireToJson (f : Fire) : Json :=
  Json.obj [("pos", positionToJson f.pos), ("expires_at", Json.int f.expiresAt)]

def fireOfJson (j : Json) : Option Fire :=
  match j with
  | Json.obj fields => do
    let pos ← (jlookup fields "pos").bind positionOfJson
    let expiresAt ← (jlookup fields "expires_at").bind intOfJson
    pure { pos := pos, expiresAt := expiresAt }
  | _ => none

def configToJson (c : GameConfig) : Json :=
  Json.obj [("width", Json.int c.width), ("height", Json.int c.height),
    ("bomb_timer", Json.int c.bombTimer), ("fire_duration", Json.int c.fireDuration),
    ("tick_rate", Json.int c.tickRate), ("max_players", Json.int c.maxPlayers),
    ("soft_wall_density", Json.rat c.softWallDensity)]

def configOfJson (j : Json) : Option GameConfig :=
  match j with
  | Json.obj fields => do
    let width ← (jlookup fields "width").bind intOfJson
    let height ← (jlookup fields "height").bind intOfJson
    let bombTimer ← (jlookup fields "bomb_timer").bind intOfJson
    let fireDuration ← (jlookup fields "fire_duration").bind intOfJson
    let tickRate ← (jlookup fields "tick_rate").bind intOfJson
    let maxPlayers ← (jlookup fields "max_players").bind intOfJson
    let softWallDensity ← (jlookup fields "soft_wall_density").bind ratOfJson
    pure { width := width, height := height, bombTimer := bombTimer,
           fireDuration := fireDuration, tickRate := tickRate,
           maxPlayers := maxPlayers, softWallDensity := softWallDensity }
  | _ => none

def boardToJson (b : List (List Tile)) : Json :=
  Json.arr (b.map (fun row => Json.arr (row.map tileToJson)))

def boardOfJson (j : Json) : Option (List (List Tile)) :=
  listOfJson (listOfJson tileOfJson) j

/-- Go sorts map keys when marshalling a map. -/
def playersToJson (ps : List (String × Player)) : Json :=
  Json.obj ((List.insertionSort (fun a b => a.1 ≤ b.1) ps).map
    (fun sp => (sp.1, playerToJson sp.2)))

def playersOfJson (j : Json) : Option (List (String × Player)) :=
  match j with
  | Json.obj fields => fields.mapM (fun kv => (playerOfJson kv.2).map (fun p => (kv.1, p)))
  | _ => none

/-- `GameState` marshals with `winner` omitted when empty (`omitempty`). -/
def gameStateToJson (st : GameState) : Json :=
  Json.obj ([("board", boardToJson st.board), ("players", playersToJson st.players),
    ("bombs", Json.arr (st.bombs.map bombToJson)),
    ("fires", Json.arr (st.fires.map fireToJson)),
    ("width", Json.int st.width), ("height", Json.int st.height),
    ("status", statusToJson st.status)]
    ++ (if st.winner = "" then [] else [("winner", Json.str st.winner)]))

def gameStateOfJson (j : Json) : Option GameState :=
  match j with
  | Json.obj fields => do
    let board ← (jlookup fields "board").bind boardOfJson
    let players ← (jlookup fields "players").bind playersOfJson
    let bombs ← (jlookup fields "bombs").bind (listOfJson bombOfJson)
    let fires ← (jlookup fields "fires").bind (listOfJson fireOfJson)
    let width ← (jlookup fields "width").bind intOfJson
    let height ← (jlookup fields "height").bind intOfJson
    let status ← (jlookup fields "status").bind statusOfJson
    let winner ← match jlookup fields "winner" with
      | none => some ""
      | some wj => strOfJson wj
    pure { board := board, players := players, bombs := bombs, fires := fires,
           width := width, height := height, status := status, winner := winner }
  | _ => none

/-- `ActionMsg` marshals with `direction` omitted when it is the zero value
`DirUp` (`omitempty` on an int field). -/
def actionMsgToJson (m : ActionMsg) : Json :=
  Json.obj ([("action_type", actionTypeToJson m.actionType)]
    ++ (if m.direction = Direction.up then [] else [("direction", directionToJson m.direction)]))

def actionMsgOfJson (j : Json) : Option ActionMsg :=
  match j with
  | Json.obj fields => do
    let a ← (jlookup fields "action_type").bind actionTypeOfJson
    let d ← match jlookup fields "direction" with
      | none => some Direction.up
      | some dj => directionOfJson dj
    pure { actionType := a, direction := d }
  | _ => none

/-- The payload each message type carries (`start` sends `struct{}{}`, an
empty object). -/
def marshalPayload : Msg → Json
  | Msg.join m => Json.obj [("name", Json.str m.name)]
  | Msg.welcome m => Json.obj [("player_id", Json.str m.playerID), ("config", configToJson m.config)]
  | Msg.action m => actionMsgToJson m
  | Msg.state m => Json.obj [("state", gameStateToJson m.state)]
  | Msg.error m => Json.obj [("message", Json.str m.message)]
  | Msg.start => Json.obj []

/-- The `Envelope` of `Encode`: `{type, payload}`. -/
def marshalEnvelope (m : Msg) : Json :=
  Json.obj [("type", Json.str (msgType m)), ("payload", marshalPayload m)]

/-- `Decode` + the per-type `DecodePayload` dispatch done by server/client:
read the envelope's type tag, then unmarshal the payload into the matching
struct (a `start` payload is never decoded). -/
def decodeMsg (j : Json) : Option Msg :=
  match j with
  | Json.obj fields => do
    let tj ← jlookup fields "type"
    let t ← strOfJson tj
    let payload ← jlookup fields "payload"
    if t = "join" then
      match payload with
      | Json.obj pf => ((jlookup pf "name").bind strOfJson).map (fun n => Msg.join { name := n })
      | _ => none
    else if t = "welcome" then
      match payload with
      | Json.obj pf => do
        let pid ← (jlookup pf "player_id").bind strOfJson
        let cfg ← (jlookup pf "config").bind configOfJson
        pure (Msg.welcome { playerID := pid, config := cfg })
      | _ => none
    else if t = "action" then
      (actionMsgOfJson payload).map Msg.action
    else if t = "state" then
      match payload with
      | Json.obj pf =>
        ((jlookup pf "state").bind gameStateOfJson).map (fun st => Msg.state { state := st })
      | _ => none
    else if t = "error" then
      match payload with
      | Json.obj pf =>
        ((jlookup pf "message").bind strOfJson).map (fun s => Msg.error { message := s })
      | _ => none
    else if t = "start" then
      some Msg.start
    else none
  | _ => none

/-- The 4-byte big-endian length header written by `Encode`
(`uint32(len(body))`). -/
def u32be (n : Nat) : List Nat :=
  [n / 2 ^ 24 % 256, n / 2 ^ 16 % 256, n / 2 ^ 8 % 256, n % 256]

/-- `Encode`'s framing: length header, then the body bytes. -/
def encodeFrame (body : List Nat) : List Nat :=
  u32be (body.length % 2 ^ 32) ++ body

/-- `Decode`'s framing: read 4 header bytes, reject a declared length above
1 MiB (`1<<20`), then read exactly that many body bytes (`io.ReadFull`). -/
def decodeFrame : List Nat → Except String (List Nat × List Nat)
  | b0 :: b1 :: b2 :: b3 :: rest =>
    let len := b0 * 2 ^ 24 + b1 * 2 ^ 16 + b2 * 2 ^ 8 + b3
    if len > 2 ^ 20 then Except.error "message too large"
    else if rest.length < len then Except.error "read body"
    else Except.ok (rest.take len, rest.drop len)
  | _ => Except.error "read length"

/-- Payloads as the engine hands them to `Encode`: the only constraint is the
canonical (key-sorted) representation of the Go player map, which is a set. -/
def MsgWF : Msg → Prop
  | Msg.state m => List.Pairwise (fun a b : String × Player => a.1 ≤ b.1) m.state.players
  | _ => True

/-! ### Concrete instances used by witnesses and counterexamples -/

/-- `DefaultConfig` from types.go (durations in nanoseconds, density 0.4). -/
def cfgW : GameConfig :=
  { width := 15, height := 13, bombTimer := 3000000000, fireDuration := 500000000,
    tickRate := 20, maxPlayers := 4, softWallDensity := 2/5 }

/-- A 13×15 all-empty grid, for scenarios that set tiles explicitly. -/
def emptyBoardW : List (List Tile) := List.replicate 13 (List.replicate 15 Tile.empty)

/-- An empty lobby state on the default dimensions. -/
def stLobbyW : GameState :=
  { board := emptyBoardW, players := [], bombs := [], fires := [],
    width := 15, height := 13, status := GameStatus.lobby, winner := "" }

/-- A finished (phase Over) state holding one registered player. -/
def aliceW : Player :=
  { id := "p1", name := "Alice", pos := ⟨1, 1⟩, alive := true, bombMax := 1,
    bombRange := 2, bombsUsed := 0, color := 0 }

/-- A dead second player, spawned at the top-right corner. -/
def bobDeadW : Player :=
  { id := "p2", name := "Bob", pos := ⟨13, 1⟩, alive := false, bombMax := 1,
    bombRange := 2, bombsUsed := 0, color := 1 }

/-- Phase Over with one registered player (e.g. after the other side left). -/
def stOverW : GameState :=
  { stLobbyW with players := [("p1", aliceW)], status := GameStatus.over }

/-- Running state with one alive and one dead player. -/
def stWinW : GameState :=
  { stLobbyW with
    players := [("p1", aliceW), ("p2", bobDeadW)]
    status := GameStatus.running }

/-- The lobby state reached by `AddPlayer p1; AddPlayer p2; RemovePlayer p1`
on `stLobbyW`: the spawn-corner reuse scenario of the C5 counterexample. -/
def stReuseW : Option GameState :=
  (AddPlayer cfgW stLobbyW "p1" "Alice").toOption.bind fun s1 =>
    (AddPlayer cfgW s1 "p2" "Bob").toOption.map fun s2 => RemovePlayer s2 "p1"

/-- The rejection condition of `movePlayer`, exactly as tested in the source:
out of bounds, a wall at the target, or a bomb at the target. -/
def moveBlocked (st : GameState) (p : Player) (dir : Direction) : Prop :=
  (stepPos p.pos dir).x < 0 ∨ (stepPos p.pos dir).x ≥ st.width
  ∨ (stepPos p.pos dir).y < 0 ∨ (stepPos p.pos dir).y ≥ st.height
  ∨ boardGet st.board (stepPos p.pos dir) = Tile.hardWall
  ∨ boardGet st.board (stepPos p.pos dir) = Tile.softWall
  ∨ st.bombs.any (fun b => b.pos = stepPos p.pos dir) = true

instance (st : GameState) (p : Player) (dir : Direction) : Decidable (moveBlocked st p dir) := by
  unfold moveBlocked; infer_instance

/-- A bomb parked below Alice's spawn, used in the movement witness. -/
def bombAtW : Bomb :=
  { ownerID := "p1", pos := ⟨1, 2⟩, range := 2, placedAt := 0, expiresAt := 3000000000 }

/-- Running state: Alice at (1,1), a bomb at (1,2), fire at (2,1). -/
def stMoveW : GameState :=
  { stLobbyW with
    players := [("p1", aliceW)]
    bombs := [bombAtW]
    fires := [{ pos := ⟨2, 1⟩, expiresAt := 500000000 }]
    status := GameStatus.running }

/-- 7×7 board with a single SoftWall at (3,1), for the expansion witness. -/
def boardC3 : List (List Tile) :=
  boardSet (List.replicate 7 (List.replicate 7 Tile.empty)) ⟨3, 1⟩ Tile.softWall

/-- Range-2 bomb in the middle of `boardC3`. -/
def bombC3 : Bomb :=
  { ownerID := "p1", pos := ⟨3, 3⟩, range := 2, placedAt := 0, expiresAt := 5 }

/-- Bomb-free 7×7 state for the chain-free expansion witness. -/
def stC3 : GameState :=
  { board := boardC3, players := [], bombs := [], fires := [],
    width := 7, height := 7, status := GameStatus.running, winner := "" }

/-- Expired range-2 bomb at (3,3), for the chain-reaction witness. -/
def bombA4 : Bomb :=
  { ownerID := "p1", pos := ⟨3, 3⟩, range := 2, placedAt := 0, expiresAt := 5 }

/-- Unexpired bomb at (5,3), inside `bombA4`'s blast radius. -/
def bombB4 : Bomb :=
  { ownerID := "p2", pos := ⟨5, 3⟩, range := 2, placedAt := 0, expiresAt := 100 }

/-- All-empty 7×7 state holding `bombA4` (expired) and `bombB4` (not). -/
def stC4 : GameState :=
  { board := List.replicate 7 (List.replicate 7 Tile.empty), players := [],
    bombs := [bombA4, bombB4], fires := [], width := 7, height := 7,
    status := GameStatus.running, winner := "" }

/-- Running state: Alice owns one active bomb at (5,5) whose fuse expired. -/
def stBombW : GameState :=
  { stLobbyW with
    players := [("p1", { aliceW with bombsUsed := 1 })]
    bombs := [{ ownerID := "p1", pos := ⟨5, 5⟩, range := 2, placedAt := 0, expiresAt := 5 }]
    status := GameStatus.running }

/-! ## Theorems -/

/-- C1: win evaluation in phase Running: zero alive (in particular with ≥ 2
registered players) ends the game as a draw; exactly one alive with more than
one registered player ends the game with that player as winner; two or more
alive change nothing; a single registered player who is alive never triggers
the transition. -/
theorem checkWin_spec (st : GameState) (hrun : st.status = GameStatus.running) :
    (((st.players.map (fun sp => sp.2)).filter (fun p => p.alive)) = [] →
        2 ≤ st.players.length →
        (checkWinCondition st).status = GameStatus.over ∧ (checkWinCondition st).winner = "")
    ∧ (∀ p : Player, ((st.players.map (fun sp => sp.2)).filter (fun p => p.alive)) = [p] →
        1 < st.players.length →
        (checkWinCondition st).status = GameStatus.over ∧ (checkWinCondition st).winner = p.id)
    ∧ (2 ≤ (((st.players.map (fun sp => sp.2)).filter (fun p => p.alive))).length →
        checkWinCondition st = st)
    ∧ (∀ (i : String) (p : Player), st.players = [(i, p)] → p.alive = true →
        checkWinCondition st = st) := by
  refine ⟨?_, ?_, ?_, ?_⟩
  · intro hf _
    simp [checkWinCondition, hrun, hf]
  · intro p hf hlen
    simp [checkWinCondition, hrun, hf, hlen]
  · intro hlen
    rcases hf : ((st.players.map (fun sp => sp.2)).filter (fun p => p.alive)) with _ | ⟨a, _ | ⟨b, rest⟩⟩
    · rw [hf] at hlen; simp at hlen
    · rw [hf] at hlen; simp at hlen
    · simp [checkWinCondition, hrun, hf]
  · intro i p hps halive
    simp [checkWinCondition, hrun, hps, halive]

/-- Witness for C1 at a concrete two-player state with one survivor. -/
theorem checkWin_spec_witness :
    (checkWinCondition stWinW).status = GameStatus.over
    ∧ (checkWinCondition stWinW).winner = "p1" :=
  (checkWin_spec stWinW (by decide)).2.1 aliceW (by decide) (by decide)

/-- C2 counterexample: `StartGame` does not inspect the phase.  On a phase
Over state with one registered player it succeeds and sets the phase back to
Running, where the claim requires a rejection. -/
theorem StartGame_counterexample :
    stOverW.status = GameStatus.over
    ∧ StartGame stOverW = Except.ok { stOverW with status := GameStatus.running } := by
  constructor
  · rfl
  · rfl

/-- C2 (amended): `StartGame` fails (leaving the state unchanged, since the
source mutates only on the success path) exactly when zero players are
registered; with at least one registered player it sets the phase to Running
regardless of the current phase, including from Running or Over. -/
theorem StartGame_spec (st : GameState) :
    (st.players.length = 0 → StartGame st = Except.error EngineError.needAtLeastOnePlayer)
    ∧ (1 ≤ st.players.length →
        StartGame st = Except.ok { st with status := GameStatus.running }) := by
  constructor
  · intro h
    simp [StartGame, h]
  · intro h
    have : ¬ st.players.length < 1 := by omega
    simp [StartGame, this]

/-- Witness for C2's amended statement at concrete states. -/
theorem StartGame_spec_witness :
    StartGame stLobbyW = Except.error EngineError.needAtLeastOnePlayer
    ∧ StartGame stOverW = Except.ok { stOverW with status := GameStatus.running } :=
  ⟨(StartGame_spec stLobbyW).1 rfl, (StartGame_spec stOverW).2 (by decide)⟩

/-- C5 counterexample: `AddPlayer` succeeds in phase Over (where the claim
requires an AlreadyRunning failure), and after p1, p2 join and p1 leaves, a
third join is assigned p2's corner (13,1) — which is in use, not "the next
unused spawn corner". -/
theorem AddPlayer_counterexample :
    stOverW.status = GameStatus.over
    ∧ (AddPlayer cfgW stOverW "p9" "Eve").isOk = true
    ∧ stReuseW.map (fun s =>
        (AddPlayer cfgW s "p3" "Carol").toOption.map (fun s2 =>
          ((findPlayer s2.players "p3").map Player.pos,
           (findPlayer s.players "p2").map Player.pos)))
      = some (some (some ⟨13, 1⟩, some ⟨13, 1⟩)) := by
  refine ⟨rfl, rfl, ?_⟩
  decide

/-- C5 (amended): `AddPlayer` fails with the AlreadyRunning error exactly when
the phase is Running (phase Over is not rejected); otherwise it fails with
GameFull when the player count has reached the configured maximum, then with
DuplicateID when the id is registered; failures leave the player map unchanged
(the source mutates it only on the success path); on success the new player
gets the spawn corner indexed by the current player count modulo 4 and the
default loadout of bomb capacity 1 and explosion range 2. -/
theorem AddPlayer_spec (cfg : GameConfig) (st : GameState) (id name : String) :
    (st.status = GameStatus.running →
        AddPlayer cfg st id name = Except.error EngineError.gameAlreadyInProgress)
    ∧ (st.status ≠ GameStatus.running → cfg.maxPlayers ≤ (st.players.length : Int) →
        AddPlayer cfg st id name = Except.error EngineError.gameFull)
    ∧ (st.status ≠ GameStatus.running → (st.players.length : Int) < cfg.maxPlayers →
        (findPlayer st.players id).isSome →
        AddPlayer cfg st id name = Except.error EngineError.playerExists)
    ∧ (st.status ≠ GameStatus.running → (st.players.length : Int) < cfg.maxPlayers →
        findPlayer st.players id = none →
        AddPlayer cfg st id name = Except.ok { st with players := st.players ++
          [(id, { id := id, name := name,
                  pos := (SpawnPositions cfg.width cfg.height).getD (st.players.length % 4) ⟨0, 0⟩,
                  alive := true, bombMax := 1, bombRange := 2, bombsUsed := 0,
                  color := ((st.players.length % 4 : Nat) : Int) })] }) := by
  refine ⟨?_, ?_, ?_, ?_⟩
  · intro h
    simp [AddPlayer, h]
  · intro h1 h2
    simp only [AddPlayer, if_neg h1]
    rw [if_pos (by exact_mod_cast h2)]
  · intro h1 h2 h3
    have h2' : ¬ ((st.players.length : Int) ≥ cfg.maxPlayers) := by omega
    simp [AddPlayer, h1, h2', h3]
  · intro h1 h2 h3
    have h2' : ¬ ((st.players.length : Int) ≥ cfg.maxPlayers) := by omega
    simp only [AddPlayer, if_neg h1, if_neg h2', h3, Option.isSome_none,
      Bool.false_eq_true, if_false, SpawnPositions, List.length_cons, List.length_nil]
    rcases Nat.lt_or_ge st.players.length 4 with hlt | hge
    · have : ¬ st.players.length ≥ 0 + 1 + 1 + 1 + 1 := by omega
      rw [if_neg this, Nat.mod_eq_of_lt hlt]
    · have : st.players.length ≥ 0 + 1 + 1 + 1 + 1 := by omega
      rw [if_pos this]

/-- Witness for C5's amended statement: rejection while Running, and a
successful join on the empty lobby. -/
theorem AddPlayer_spec_witness :
    AddPlayer cfgW stWinW "p9" "Eve" = Except.error EngineError.gameAlreadyInProgress
    ∧ (AddPlayer cfgW stLobbyW "p1" "Alice").isOk = true := by
  refine ⟨(AddPlayer_spec cfgW stWinW "p9" "Eve").1 rfl, ?_⟩
  rw [(AddPlayer_spec cfgW stLobbyW "p1" "Alice").2.2.2 (by decide) (by decide) rfl]
  rfl

/-- C6: for an alive registered player, a move intent is rejected with the
state unchanged when the target cell is out of bounds, a wall, or holds a
bomb; otherwise the player's position advances by exactly one cell, and if an
active fire covers the destination the player dies in the same intent. -/
theorem movePlayer_spec (st : GameState) (pid : String) (p : Player) (dir : Direction)
    (hp : findPlayer st.players pid = some p) (halive : p.alive = true) :
    (moveBlocked st p dir → movePlayer st pid dir = st)
    ∧ (¬ moveBlocked st p dir →
        movePlayer st pid dir = { st with
          players := setPlayer st.players pid
              (if st.fires.any (fun f => f.pos = stepPos p.pos dir) = true
                then { p with pos := stepPos p.pos dir, alive := false }
                else { p with pos := stepPos p.pos dir }) }) := by
  constructor
  · intro hb
    unfold moveBlocked at hb
    simp only [movePlayer, hp, halive, Bool.not_true, Bool.false_eq_true, if_false]
    by_cases h1 : (stepPos p.pos dir).x < 0 ∨ (stepPos p.pos dir).x ≥ st.width
        ∨ (stepPos p.pos dir).y < 0 ∨ (stepPos p.pos dir).y ≥ st.height
    · rw [if_pos h1]
    · rw [if_neg h1]
      by_cases h2 : boardGet st.board (stepPos p.pos dir) = Tile.hardWall
          ∨ boardGet st.board (stepPos p.pos dir) = Tile.softWall
      · rw [if_pos h2]
      · rw [if_neg h2]
        have h3 : st.bombs.any (fun b => b.pos = stepPos p.pos dir) = true := by tauto
        rw [if_pos h3]
  · intro hb
    unfold moveBlocked at hb
    push_neg at hb
    obtain ⟨hx0, hxw, hy0, hyh, hhard, hsoft, hbomb⟩ := hb
    simp only [movePlayer, hp, halive, Bool.not_true, Bool.false_eq_true, if_false]
    rw [if_neg (by push_neg; exact ⟨hx0, hxw, hy0, hyh⟩), if_neg (by push_neg; exact ⟨hhard, hsoft⟩),
      if_neg (by simp [hbomb])]

/-- Witness for C6: the bomb below Alice blocks a move down; the move right
succeeds and the fire at (2,1) kills her in the same intent. -/
theorem movePlayer_spec_witness :
    movePlayer stMoveW "p1" Direction.down = stMoveW
    ∧ movePlayer stMoveW "p1" Direction.right
      = { stMoveW with players := [("p1", { aliceW with pos := ⟨2, 1⟩, alive := false })] } := by
  have h := movePlayer_spec stMoveW "p1" aliceW Direction.down rfl rfl
  have h2 := movePlayer_spec stMoveW "p1" aliceW Direction.right rfl rfl
  refine ⟨h.1 (by decide), ?_⟩
  rw [h2.2 (by decide)]
  rfl

/-- C10: an action whose player id is unregistered, or whose player is dead,
leaves the whole game state unchanged (the handlers return immediately and
have no error channel). -/
theorem processAction_frame (cfg : GameConfig) (now : Int) (st : GameState) (a : Action)
    (h : findPlayer st.players a.playerID = none
        ∨ ∃ p, findPlayer st.players a.playerID = some p ∧ p.alive = false) :
    processAction cfg now st a = st := by
  rcases h with h | ⟨p, hp, hd⟩
  · cases ht : a.type <;> simp [processAction, ht, movePlayer, placeBomb, h]
  · cases ht : a.type <;> simp [processAction, ht, movePlayer, placeBomb, hp, hd]

/-- Witness for C10: an unregistered id and a dead player both leave the
state untouched. -/
theorem processAction_frame_witness :
    processAction cfgW 0 stWinW { playerID := "ghost", type := ActionType.move, dir := Direction.up }
      = stWinW
    ∧ processAction cfgW 0 stWinW { playerID := "p2", type := ActionType.placeBomb, dir := Direction.up }
      = stWinW :=
  ⟨processAction_frame cfgW 0 stWinW _ (Or.inl (by decide)),
   processAction_frame cfgW 0 stWinW _ (Or.inr ⟨bobDeadW, by decide, rfl⟩)⟩

/-! ### Frame lemmas for the explosion pass -/

theorem preserves_rfl (sd : GameState × List Nat) : Preserves sd sd :=
  ⟨rfl, rfl, rfl, fun _ => rfl⟩

theorem preserves_trans {a b c : GameState × List Nat}
    (h1 : Preserves a b) (h2 : Preserves b c) : Preserves a c :=
  ⟨h2.1.trans h1.1, h2.2.1.trans h1.2.1, h2.2.2.1.trans h1.2.2.1,
   fun id => (h2.2.2.2 id).trans (h1.2.2.2 id)⟩

theorem foldl_preserves {β : Type} (f : GameState × List Nat → β → GameState × List Nat)
    (hf : ∀ sd x, Preserves sd (f sd x)) :
    ∀ (l : List β) (sd : GameState × List Nat), Preserves sd (l.foldl f sd) := by
  intro l
  induction l with
  | nil => intro sd; exact preserves_rfl _
  | cons x rest ih =>
    intro sd
    rw [List.foldl_cons]
    exact preserves_trans (hf sd x) (ih _)

theorem usedOf_map_keep (g : String × Player → String × Player)
    (hg : ∀ sp, (g sp).1 = sp.1 ∧ (g sp).2.bombsUsed = sp.2.bombsUsed)
    (ps : List (String × Player)) (id : String) :
    usedOf (ps.map g) id = usedOf ps id := by
  induction ps with
  | nil => rfl
  | cons sp rest ih =>
    by_cases hid : sp.1 = id
    · unfold usedOf
      rw [List.map_cons, List.find?_cons_of_pos _ (by simp [(hg sp).1, hid]),
        List.find?_cons_of_pos _ (by simp [hid])]
      simp [(hg sp).2]
    · unfold usedOf
      rw [List.map_cons, List.find?_cons_of_neg _ (by simp [(hg sp).1, hid]),
        List.find?_cons_of_neg _ (by simp [hid])]
      exact ih

theorem usedOf_damagePlayers (st : GameState) (id : String) :
    usedOf (damagePlayersInFire st).players id = usedOf st.players id := by
  unfold damagePlayersInFire
  refine usedOf_map_keep _ (fun sp => ?_) st.players id
  dsimp only
  split <;> simp

theorem chainAt_preserves (chain : Bomb → GameState × List Nat → GameState × List Nat)
    (hchain : ∀ b sd, Preserves sd (chain b sd)) (pos : Position) :
    ∀ (l : List (Nat × Bomb)) (sd : GameState × List Nat),
      Preserves sd (chainAt chain pos l sd) := by
  intro l
  induction l with
  | nil => intro sd; obtain ⟨st, det⟩ := sd; exact preserves_rfl _
  | cons ib rest ih =>
    intro sd
    obtain ⟨st, det⟩ := sd
    show Preserves (st, det) (chainAt chain pos (ib :: rest) (st, det))
    unfold chainAt
    split
    · exact preserves_trans (hchain ib.2 (st, ib.1 :: det)) (ih _)
    · exact ih _

theorem walkDir_preserves (chain : Bomb → GameState × List Nat → GameState × List Nat)
    (hchain : ∀ b sd, Preserves sd (chain b sd)) (c d : Position) (fe : Int) :
    ∀ (k : Nat) (dist : Int) (sd : GameState × List Nat),
      Preserves sd (walkDir chain c d fe k dist sd) := by
  intro k
  induction k with
  | zero => intro dist sd; obtain ⟨st, det⟩ := sd; exact preserves_rfl _
  | succ k ih =>
    intro dist sd
    obtain ⟨st, det⟩ := sd
    show Preserves (st, det) (walkDir chain c d fe (k + 1) dist (st, det))
    simp only [walkDir]
    split
    · exact preserves_rfl _
    · split
      · exact preserves_rfl _
      · split
        · exact ⟨rfl, rfl, rfl, fun _ => rfl⟩
        · refine preserves_trans ?_ (ih (dist + 1) _)
          refine preserves_trans (show Preserves (st, det)
              (addFire st ⟨c.x + d.x * dist, c.y + d.y * dist⟩ fe, det) from
            ⟨rfl, rfl, rfl, fun _ => rfl⟩) ?_
          exact chainAt_preserves chain hchain _ _ _

theorem explodeFuel_preserves :
    ∀ (fuel : Nat) (now fireDur : Int) (b : Bomb) (sd : GameState × List Nat),
      Preserves sd (explodeFuel fuel now fireDur b sd) := by
  intro fuel
  induction fuel with
  | zero => intro now fireDur b sd; exact preserves_rfl _
  | succ n ih =>
    intro now fireDur b sd
    show Preserves sd (explodeFuel (n + 1) now fireDur b sd)
    simp only [explodeFuel]
    refine preserves_trans (preserves_trans
      (show Preserves sd (addFire sd.1 b.pos (now + fireDur), sd.2) from
        ⟨rfl, rfl, rfl, fun _ => rfl⟩)
      (foldl_preserves _ (fun sd' d => walkDir_preserves
        (fun b s => explodeFuel n now fireDur b s)
        (fun bb s => ih now fireDur bb s) b.pos d (now + fireDur) b.range.toNat 1 sd')
        [⟨0, -1⟩, ⟨0, 1⟩, ⟨-1, 0⟩, ⟨1, 0⟩]
        (addFire sd.1 b.pos (now + fireDur), sd.2))) ?_
    exact ⟨rfl, rfl, rfl, fun id => usedOf_damagePlayers _ id⟩

theorem fold_detonate_preserves (now fireDur : Int) :
    ∀ (l : List Nat) (sd : GameState × List Nat),
      Preserves sd (l.foldl (detonateStep now fireDur) sd) := by
  intro l
  induction l with
  | nil => intro sd; exact preserves_rfl _
  | cons i rest ih =>
    intro sd
    rw [List.foldl_cons]
    refine preserves_trans ?_ (ih _)
    unfold detonateStep
    split
    · exact explodeFuel_preserves _ now fireDur _ sd
    · exact preserves_rfl _

/-! ### Bomb-counter accounting through the removal pass -/

theorem usedOf_dec (oid id : String) (ps : List (String × Player)) :
    usedOf (ps.map (fun sp => if sp.1 = oid
        then (sp.1, { sp.2 with bombsUsed := sp.2.bombsUsed - 1 }) else sp)) id
      = if oid = id then (usedOf ps id).map (fun u => u - 1) else usedOf ps id := by
  induction ps with
  | nil => unfold usedOf; split <;> rfl
  | cons sp rest ih =>
    by_cases hid : sp.1 = id
    · unfold usedOf
      rw [List.map_cons, List.find?_cons_of_pos _ (by simp [hid]; split <;> simp [hid]),
        List.find?_cons_of_pos _ (by simp [hid])]
      by_cases ho : oid = id
      · have : sp.1 = oid := by rw [hid, ho]
        simp [this, ho]
      · have : ¬ sp.1 = oid := fun h => ho (by rw [← h, hid])
        simp [this, ho]
    · unfold usedOf
      rw [List.map_cons, List.find?_cons_of_neg _ (by simp [hid]; split <;> simp [hid]),
        List.find?_cons_of_neg _ (by simp [hid])]
      exact ih

theorem fold_remove_used (det1 : List Nat) (id : String) :
    ∀ (l : List (Nat × Bomb)) (ps : List (String × Player)) (u : Int),
      usedOf ps id = some u →
      usedOf (l.foldl (removeStep det1) ps) id
        = some (u - (l.countP (fun ib =>
            decide (ib.1 ∈ det1) && decide (ib.2.ownerID = id)) : Int)) := by
  intro l
  induction l with
  | nil =>
    intro ps u hu
    simpa using hu
  | cons ib rest ih =>
    intro ps u hu
    rw [List.foldl_cons, List.countP_cons]
    by_cases hdet : ib.1 ∈ det1
    · by_cases hown : ib.2.ownerID = id
      · have hps : usedOf (removeStep det1 ps ib) id = some (u - 1) := by
          unfold removeStep
          rw [if_pos hdet, usedOf_dec, if_pos hown, hu]
          rfl
        rw [ih _ _ hps]
        have hc : (decide (ib.1 ∈ det1) && decide (ib.2.ownerID = id)) = true := by
          simp [hdet, hown]
        rw [hc, if_pos rfl]
        congr 1
        push_cast
        ring
      · have hps : usedOf (removeStep det1 ps ib) id = some u := by
          unfold removeStep
          rw [if_pos hdet, usedOf_dec, if_neg hown, hu]
        rw [ih _ _ hps]
        simp [hown]
    · have hps : usedOf (removeStep det1 ps ib) id = some u := by
        unfold removeStep
        rw [if_neg hdet, hu]
      rw [ih _ _ hps]
      simp [hdet]

theorem countP_and_split {α : Type} (p q : α → Bool) (l : List α) :
    l.countP p = l.countP (fun a => q a && p a) + l.countP (fun a => !q a && p a) := by
  induction l with
  | nil => rfl
  | cons a l ih =>
    simp only [List.countP_cons, ih]
    cases hq : q a <;> cases hp : p a <;> simp <;> omega

theorem countP_enum_snd {α : Type} (p : α → Bool) (l : List α) :
    l.enum.countP (fun ib => p ib.2) = l.countP p := by
  have h1 : (l.enum.map Prod.snd).countP p = l.enum.countP (fun ib => p ib.2) := by
    rw [List.countP_map]
    rfl
  rw [← h1, List.enum_map_snd]

/-- C7: a place-bomb intent is rejected without any state change when the
player is dead, at bomb capacity, or standing on a bomb; on success the bomb
is recorded at the player's position with the player's current range and
expiry `now + fuse`, and the counter is incremented; and across a tick's
detonation pass the counter drops by exactly the number of that owner's
bombs that detonated (one per detonating owned bomb, nothing else). -/
theorem placeBomb_spec (cfg : GameConfig) (now fireDur : Int) (st : GameState)
    (pid : String) (p : Player) (hp : findPlayer st.players pid = some p) :
    (p.alive = false → placeBomb cfg now st pid = st)
    ∧ (p.bombMax ≤ p.bombsUsed → placeBomb cfg now st pid = st)
    ∧ (st.bombs.any (fun b => b.pos = p.pos) = true → placeBomb cfg now st pid = st)
    ∧ (p.alive = true → p.bombsUsed < p.bombMax →
        st.bombs.any (fun b => b.pos = p.pos) = false →
        placeBomb cfg now st pid = { st with
          bombs := st.bombs ++ [{ ownerID := pid, pos := p.pos, range := p.bombRange,
                                  placedAt := now, expiresAt := now + cfg.bombTimer }],
          players := setPlayer st.players pid { p with bombsUsed := p.bombsUsed + 1 } })
    ∧ (∀ id u, usedOf st.players id = some u →
        usedOf (tickBombs now fireDur st).players id
          = some (u - ((ownedCount st.bombs id : Int)
                       - (ownedCount (tickBombs now fireDur st).bombs id : Int)))) := by
  refine ⟨?_, ?_, ?_, ?_, ?_⟩
  · intro h
    simp [placeBomb, hp, h]
  · intro h
    by_cases ha : p.alive
    · simp [placeBomb, hp, ha, h]
    · simp [placeBomb, hp, ha]
  · intro h
    by_cases ha : p.alive
    · by_cases hc : p.bombsUsed ≥ p.bombMax
      · simp [placeBomb, hp, ha, hc]
      · simp [placeBomb, hp, ha, hc, h]
    · simp [placeBomb, hp, ha]
  · intro ha hc hb
    have hc' : ¬ p.bombsUsed ≥ p.bombMax := by omega
    simp [placeBomb, hp, ha, hc', hb]
  · intro id u hu
    have hpre := fold_detonate_preserves now fireDur
      ((st.bombs.enum.filter (fun ib => now > ib.2.expiresAt)).map (fun ib => ib.1))
      (st, (st.bombs.enum.filter (fun ib => now > ib.2.expiresAt)).map (fun ib => ib.1))
    simp only [tickBombs]
    set d0 := (st.bombs.enum.filter (fun ib => now > ib.2.expiresAt)).map (fun ib => ib.1)
      with hd0
    set sd := d0.foldl (detonateStep now fireDur) (st, d0) with hsddef
    obtain ⟨hbombs, -, -, hused⟩ := hpre
    have hu1 : usedOf sd.1.players id = some u := by rw [hused id]; exact hu
    rw [fold_remove_used sd.2 id _ _ u hu1]
    congr 1
    rw [hbombs]
    have hsplit := countP_and_split
      (fun ib : Nat × Bomb => decide (ib.2.ownerID = id))
      (fun ib : Nat × Bomb => decide (ib.1 ∈ sd.2)) st.bombs.enum
    have hall : st.bombs.enum.countP (fun ib => decide (ib.2.ownerID = id))
        = ownedCount st.bombs id := by
      unfold ownedCount
      exact countP_enum_snd (fun b => decide (b.ownerID = id)) st.bombs
    have hkept : ownedCount
        ((st.bombs.enum.filter (fun ib => ¬ ib.1 ∈ sd.2)).map (fun ib => ib.2)) id
        = st.bombs.enum.countP
            (fun ib => !decide (ib.1 ∈ sd.2) && decide (ib.2.ownerID = id)) := by
      unfold ownedCount
      rw [List.countP_map, List.countP_filter]
      refine List.countP_congr (fun ib _ => ?_)
      simp [Bool.and_comm]
    rw [hkept]
    have hdet : st.bombs.enum.countP
        (fun ib => decide (ib.1 ∈ sd.2) && decide (ib.2.ownerID = id))
        = st.bombs.enum.countP
            (fun ib => decide (ib.1 ∈ sd.2) && decide (ib.2.ownerID = id)) := rfl
    rw [hall] at hsplit
    push_cast
    omega

/-- Witness for C7: Alice places a bomb at her tile, and the expired bomb of
`stBombW` returns its owner's capacity during the tick. -/
theorem placeBomb_spec_witness :
    placeBomb cfgW 0 stMoveW "p1" = { stMoveW with
      bombs := stMoveW.bombs ++ [{ ownerID := "p1", pos := ⟨1, 1⟩, range := 2,
                                   placedAt := 0, expiresAt := 0 + cfgW.bombTimer }],
      players := setPlayer stMoveW.players "p1" { aliceW with bombsUsed := 0 + 1 } }
    ∧ usedOf (tickBombs 10 500 stBombW).players "p1"
        = some (1 - ((ownedCount stBombW.bombs "p1" : Int)
                     - (ownedCount (tickBombs 10 500 stBombW).bombs "p1" : Int))) := by
  refine ⟨(placeBomb_spec cfgW 0 500 stMoveW "p1" aliceW rfl).2.2.2.1 rfl (by decide)
    (by decide), ?_⟩
  exact (placeBomb_spec cfgW 10 500 stBombW "p1" { aliceW with bombsUsed := 1 }
    rfl).2.2.2.2 "p1" 1 rfl

/-! ### Chain-free explosion expansion (C3) -/

theorem chainAt_noop (chain : Bomb → GameState × List Nat → GameState × List Nat)
    (pos : Position) :
    ∀ (l : List (Nat × Bomb)) (st : GameState) (det : List Nat),
      (∀ ib ∈ l, ib.1 ∈ det) → chainAt chain pos l (st, det) = (st, det) := by
  intro l
  induction l with
  | nil => intro st det _; rfl
  | cons ib rest ih =>
    intro st det h
    show chainAt chain pos (ib :: rest) (st, det) = (st, det)
    unfold chainAt
    rw [if_neg (fun hc => hc.2 (h ib (List.mem_cons_self _ _)))]
    exact ih st det (fun jb hj => h jb (List.mem_cons_of_mem _ hj))

theorem walkDir_expansion (chain : Bomb → GameState × List Nat → GameState × List Nat)
    (c d : Position) (fe : Int) :
    ∀ (k : Nat) (dist : Int) (st : GameState) (det : List Nat),
      (∀ ib ∈ st.bombs.enum, ib.1 ∈ det) →
      (∀ j : Nat, j < k →
        ¬(c.x + d.x * (dist + j) < 0 ∨ c.x + d.x * (dist + j) ≥ st.width
          ∨ c.y + d.y * (dist + j) < 0 ∨ c.y + d.y * (dist + j) ≥ st.height)) →
      walkDir chain c d fe k dist (st, det)
        = ({ st with
             board := (expansionSpec st.board c d k dist).2,
             fires := st.fires ++ (expansionSpec st.board c d k dist).1.map
               (fun p => { pos := p, expiresAt := fe }) }, det) := by
  intro k
  induction k with
  | zero =>
    intro dist st det _ _
    simp [walkDir, expansionSpec]
  | succ k ih =>
    intro dist st det hdet hin
    have hb := hin 0 (Nat.succ_pos k)
    simp only [Nat.cast_zero, add_zero] at hb
    simp only [walkDir]
    rw [if_neg hb]
    rcases htile : boardGet st.board ⟨c.x + d.x * dist, c.y + d.y * dist⟩ with _ | _ | _
    · -- Empty: fire, (trivial) chain loop, continue
      rw [if_neg (by simp [htile]), if_neg (by simp [htile]),
        chainAt_noop chain ⟨c.x + d.x * dist, c.y + d.y * dist⟩
          (addFire st ⟨c.x + d.x * dist, c.y + d.y * dist⟩ fe).bombs.enum
          (addFire st ⟨c.x + d.x * dist, c.y + d.y * dist⟩ fe) det hdet]
      have hin' : ∀ j : Nat, j < k →
          ¬(c.x + d.x * ((dist + 1) + j) < 0
            ∨ c.x + d.x * ((dist + 1) + j) ≥ (addFire st ⟨c.x + d.x * dist, c.y + d.y * dist⟩ fe).width
            ∨ c.y + d.y * ((dist + 1) + j) < 0
            ∨ c.y + d.y * ((dist + 1) + j) ≥ (addFire st ⟨c.x + d.x * dist, c.y + d.y * dist⟩ fe).height) := by
        intro j hj
        have h := hin (j + 1) (by omega)
        push_cast at h
        rw [show dist + ((j : Int) + 1) = (dist + 1) + (j : Int) by ring] at h
        exact h
      rw [ih (dist + 1) (addFire st ⟨c.x + d.x * dist, c.y + d.y * dist⟩ fe) det hdet hin']
      simp [addFire, expansionSpec, htile, List.append_assoc]
    · -- HardWall: stop, no fire
      rw [if_pos (by simp [htile])]
      simp [expansionSpec, htile]
    · -- SoftWall: destroy, fire, stop
      rw [if_neg (by simp [htile]), if_pos (by simp [htile])]
      simp [expansionSpec, htile]

theorem foldl_walkDir_expansion (chain : Bomb → GameState × List Nat → GameState × List Nat)
    (c : Position) (fe : Int) (range : Nat) :
    ∀ (ds : List Position) (st : GameState) (det : List Nat),
      (∀ ib ∈ st.bombs.enum, ib.1 ∈ det) →
      (∀ d ∈ ds, ∀ j : Nat, j < range →
        ¬(c.x + d.x * (1 + j) < 0 ∨ c.x + d.x * (1 + j) ≥ st.width
          ∨ c.y + d.y * (1 + j) < 0 ∨ c.y + d.y * (1 + j) ≥ st.height)) →
      ds.foldl (fun sd d => walkDir chain c d fe range 1 sd) (st, det)
        = ({ st with
             board := (expansionMulti st.board c range ds).2,
             fires := st.fires ++ (expansionMulti st.board c range ds).1.map
               (fun p => { pos := p, expiresAt := fe }) }, det) := by
  intro ds
  induction ds with
  | nil =>
    intro st det _ _
    simp [expansionMulti]
  | cons d ds ih =>
    intro st det hdet hds
    rw [List.foldl_cons, walkDir_expansion chain c d fe range 1 st det hdet
      (hds d (List.mem_cons_self _ _)),
      ih { st with
          board := (expansionSpec st.board c d range 1).2,
          fires := st.fires ++ (expansionSpec st.board c d range 1).1.map
            (fun p => { pos := p, expiresAt := fe }) } det hdet
        (fun d' hd' => hds d' (List.mem_cons_of_mem _ hd'))]
    simp [expansionMulti, List.map_append, List.append_assoc]

/-- C3: a chain-free explosion (every bomb already marked detonated, the rays
inside the board) places fire exactly as the spec's expansion rule describes:
center fire, then per direction fire on every Empty cell until the first
blocker; a HardWall stops the ray with no fire; a SoftWall is converted to
Empty, receives fire, and stops the ray; nothing beyond `range` is touched —
stated as equality with `expansionSpec`, the verbatim transcription of the
spec's rule. -/
theorem explode_expansion (n : Nat) (now fireDur : Int) (bomb : Bomb)
    (st : GameState) (det : List Nat)
    (hdet : ∀ ib ∈ st.bombs.enum, ib.1 ∈ det)
    (hin : ∀ d ∈ ([⟨0, -1⟩, ⟨0, 1⟩, ⟨-1, 0⟩, ⟨1, 0⟩] : List Position),
      ∀ j : Nat, j < bomb.range.toNat →
        ¬(bomb.pos.x + d.x * (1 + j) < 0 ∨ bomb.pos.x + d.x * (1 + j) ≥ st.width
          ∨ bomb.pos.y + d.y * (1 + j) < 0 ∨ bomb.pos.y + d.y * (1 + j) ≥ st.height)) :
    explodeFuel (n + 1) now fireDur bomb (st, det)
      = (explodeSpec st bomb (now + fireDur), det) := by
  simp only [explodeFuel]
  rw [foldl_walkDir_expansion (fun b s => explodeFuel n now fireDur b s) bomb.pos
    (now + fireDur) bomb.range.toNat [⟨0, -1⟩, ⟨0, 1⟩, ⟨-1, 0⟩, ⟨1, 0⟩]
    (addFire st bomb.pos (now + fireDur)) det hdet hin]
  simp [explodeSpec, addFire, List.append_assoc]

/-- Witness for C3: the range-2 bomb at (3,3) on `boardC3` fires the center,
both full Empty rays, and stops on the SoftWall at (3,1) after firing and
destroying it. -/
theorem explode_expansion_witness :
    explodeFuel 1 10 500 bombC3 (stC3, []) = (explodeSpec stC3 bombC3 510, [])
    ∧ (explodeSpec stC3 bombC3 510).fires.map (fun f => (f.pos.x, f.pos.y))
        = [(3, 3), (3, 2), (3, 1), (3, 4), (3, 5), (2, 3), (1, 3), (4, 3), (5, 3)]
    ∧ boardGet (explodeSpec stC3 bombC3 510).board ⟨3, 1⟩ = Tile.empty := by
  refine ⟨explode_expansion 0 10 500 bombC3 stC3 [] (by simp [stC3]) (by decide), ?_, ?_⟩
  · decide
  · decide

/-! ### Chain reactions resolve within the same pass (C4) -/

theorem stepOK_rfl (B : List Bomb) (sd : GameState × List Nat) : StepOK B sd sd := by
  refine ⟨rfl, fun _ h => h, fun _ h => h, [], by simp, ?_⟩
  intro f hf
  exact absurd hf (List.not_mem_nil f)

theorem stepOK_trans (B : List Bomb) {a b c : GameState × List Nat}
    (h1 : StepOK B a b) (h2 : StepOK B b c) : StepOK B a c := by
  obtain ⟨hb1, hd1, hbo1, n1, hf1, hs1⟩ := h1
  obtain ⟨hb2, hd2, hbo2, n2, hf2, hs2⟩ := h2
  refine ⟨hb2.trans hb1, fun i hi => hd2 i (hd1 i hi), fun p hp => hbo2 p (hbo1 p hp),
    n1 ++ n2, by rw [hf2, hf1, List.append_assoc], ?_⟩
  intro f hf ib hib hnd
  rcases List.mem_append.1 hf with h | h
  · exact hs1 f h ib hib (fun hmem => hnd (hd2 _ hmem))
  · exact hs2 f h ib hib hnd

theorem bombsWF_stepOK (B : List Bomb) {sd sd' : GameState × List Nat}
    (h : StepOK B sd sd') (hwf : BombsWF B sd.1) : BombsWF B sd'.1 :=
  ⟨h.1.trans hwf.1, hwf.2.1, fun bb hbb => h.2.2.1 bb.pos (hwf.2.2 bb hbb)⟩

theorem getD_set_cases {α : Type} (l : List α) (i j : Nat) (a d : α) :
    (l.set i a).getD j d = if i = j ∧ j < l.length then a else l.getD j d := by
  induction l generalizing i j with
  | nil => simp
  | cons x xs ih =>
    cases i with
    | zero =>
      cases j with
      | zero => simp
      | succ j => simp
    | succ i =>
      cases j with
      | zero => simp
      | succ j =>
        simp only [List.set_cons_succ, List.getD_cons_succ, List.length_cons, ih i j]
        by_cases h : i = j ∧ j < xs.length
        · rw [if_pos h, if_pos ⟨by omega, by omega⟩]
        · rw [if_neg h, if_neg (by omega)]

theorem boardGet_boardSet_empty (b : List (List Tile)) (q p : Position)
    (h : boardGet b p = Tile.empty) :
    boardGet (boardSet b q Tile.empty) p = Tile.empty := by
  unfold boardGet boardSet at *
  rw [getD_set_cases]
  by_cases hy : q.y.toNat = p.y.toNat ∧ p.y.toNat < b.length
  · rw [if_pos hy, getD_set_cases]
    by_cases hx : q.x.toNat = p.x.toNat ∧ p.x.toNat < (b.getD q.y.toNat []).length
    · rw [if_pos hx]
    · rw [if_neg hx, hy.1]
      exact h
  · rw [if_neg hy]
    exact h

theorem snd_mem_of_mem_enum {α : Type} {l : List α} {x : Nat × α} (h : x ∈ l.enum) :
    x.2 ∈ l := by
  have := List.mem_map_of_mem Prod.snd h
  rwa [List.enum_map_snd] at this

theorem enum_pos_inj (B : List Bomb) (hB : B.Pairwise (fun a b => a.pos ≠ b.pos))
    {ib jb : Nat × Bomb} (hi : ib ∈ B.enum) (hj : jb ∈ B.enum)
    (hpos : ib.2.pos = jb.2.pos) : ib.1 = jb.1 := by
  have hgi := List.mem_enum_iff_getElem?.1 hi
  have hgj := List.mem_enum_iff_getElem?.1 hj
  have hli : ib.1 < B.length := by
    by_contra hc
    rw [List.getElem?_eq_none (by omega)] at hgi
    cases hgi
  have hlj : jb.1 < B.length := by
    by_contra hc
    rw [List.getElem?_eq_none (by omega)] at hgj
    cases hgj
  have hvi : B[ib.1] = ib.2 := by
    rw [List.getElem?_eq_getElem hli] at hgi
    exact Option.some.inj hgi
  have hvj : B[jb.1] = jb.2 := by
    rw [List.getElem?_eq_getElem hlj] at hgj
    exact Option.some.inj hgj
  by_contra hne
  rcases Nat.lt_or_ge ib.1 jb.1 with hlt | hge
  · exact (List.pairwise_iff_getElem.1 hB ib.1 jb.1 hli hlj hlt) (by rw [hvi, hvj]; exact hpos)
  · have hlt : jb.1 < ib.1 := by omega
    exact (List.pairwise_iff_getElem.1 hB jb.1 ib.1 hlj hli hlt) (by rw [hvi, hvj]; exact hpos.symm)

theorem chainAt_stepOK (B : List Bomb)
    (chain : Bomb → GameState × List Nat → GameState × List Nat)
    (hB : B.Pairwise (fun a b => a.pos ≠ b.pos))
    (hchain : ∀ (bb : Bomb) (sd : GameState × List Nat), BombsWF B sd.1 →
        (∀ jb ∈ B.enum, jb.2.pos = bb.pos → jb.1 ∈ sd.2) →
        StepOK B sd (chain bb sd))
    (pos : Position) :
    ∀ (l : List (Nat × Bomb)), (∀ ib ∈ l, ib ∈ B.enum) →
      ∀ (sd : GameState × List Nat), BombsWF B sd.1 →
        StepOK B sd (chainAt chain pos l sd)
        ∧ ∀ ib ∈ l, ib.2.pos = pos → ib.1 ∈ (chainAt chain pos l sd).2 := by
  intro l
  induction l with
  | nil =>
    intro _ sd hwf
    obtain ⟨st, det⟩ := sd
    exact ⟨stepOK_rfl B _, by simp⟩
  | cons ib rest ih =>
    intro hl sd hwf
    obtain ⟨st, det⟩ := sd
    by_cases hcond : ib.2.pos = pos ∧ ¬ ib.1 ∈ det
    · have heq : chainAt chain pos (ib :: rest) (st, det)
          = chainAt chain pos rest (chain ib.2 (st, ib.1 :: det)) := by
        conv_lhs => unfold chainAt
        rw [if_pos hcond]
      have hstep1 : StepOK B (st, det) (st, ib.1 :: det) := by
        refine ⟨rfl, fun i hi => List.mem_cons_of_mem _ hi, fun p hp => hp, [], by simp, ?_⟩
        intro f hf
        exact absurd hf (List.not_mem_nil f)
      have hentry : ∀ jb ∈ B.enum, jb.2.pos = ib.2.pos → jb.1 ∈ (st, ib.1 :: det).2 := by
        intro jb hjb hjpos
        have hji := enum_pos_inj B hB hjb (hl ib (List.mem_cons_self _ _)) hjpos
        rw [hji]
        exact List.mem_cons_self _ _
      have h1 := hchain ib.2 (st, ib.1 :: det) (bombsWF_stepOK B hstep1 hwf) hentry
      obtain ⟨hrest, hmarks⟩ := ih (fun jb hj => hl jb (List.mem_cons_of_mem _ hj))
        (chain ib.2 (st, ib.1 :: det)) (bombsWF_stepOK B (stepOK_trans B hstep1 h1) hwf)
      refine ⟨?_, ?_⟩
      · rw [heq]
        exact stepOK_trans B (stepOK_trans B hstep1 h1) hrest
      · intro jb hjb hjpos
        rw [heq]
        rcases List.mem_cons.1 hjb with rfl | htail
        · exact hrest.2.1 jb.1 (h1.2.1 jb.1 (List.mem_cons_self _ _))
        · exact hmarks jb htail hjpos
    · have heq : chainAt chain pos (ib :: rest) (st, det)
          = chainAt chain pos rest (st, det) := by
        conv_lhs => unfold chainAt
        rw [if_neg hcond]
      obtain ⟨hrest, hmarks⟩ := ih (fun jb hj => hl jb (List.mem_cons_of_mem _ hj))
        (st, det) hwf
      refine ⟨?_, ?_⟩
      · rw [heq]
        exact hrest
      · intro jb hjb hjpos
        rw [heq]
        rcases List.mem_cons.1 hjb with rfl | htail
        · have hin : jb.1 ∈ det := by
            by_contra hc
            exact hcond ⟨hjpos, hc⟩
          exact hrest.2.1 jb.1 hin
        · exact hmarks jb htail hjpos

theorem walkDir_stepOK (B : List Bomb)
    (chain : Bomb → GameState × List Nat → GameState × List Nat)
    (hB : B.Pairwise (fun a b => a.pos ≠ b.pos))
    (hchain : ∀ (bb : Bomb) (sd : GameState × List Nat), BombsWF B sd.1 →
        (∀ jb ∈ B.enum, jb.2.pos = bb.pos → jb.1 ∈ sd.2) →
        StepOK B sd (chain bb sd))
    (c d : Position) (fe : Int) :
    ∀ (k : Nat) (dist : Int) (sd : GameState × List Nat), BombsWF B sd.1 →
      StepOK B sd (walkDir chain c d fe k dist sd) := by
  intro k
  induction k with
  | zero => intro dist sd _; obtain ⟨st, det⟩ := sd; exact stepOK_rfl B _
  | succ k ih =>
    intro dist sd hwf
    obtain ⟨st, det⟩ := sd
    simp only [walkDir]
    by_cases hbound : c.x + d.x * dist < 0 ∨ c.x + d.x * dist ≥ st.width
        ∨ c.y + d.y * dist < 0 ∨ c.y + d.y * dist ≥ st.height
    · rw [if_pos hbound]
      exact stepOK_rfl B _
    rw [if_neg hbound]
    rcases htile : boardGet st.board ⟨c.x + d.x * dist, c.y + d.y * dist⟩ with _ | _ | _
    · -- Empty: fire, chain loop, recurse
      rw [if_neg (by simp [htile]), if_neg (by simp [htile])]
      have hwf1 : BombsWF B
          (addFire st ⟨c.x + d.x * dist, c.y + d.y * dist⟩ fe) :=
        ⟨hwf.1, hwf.2.1, fun bb hbb => hwf.2.2 bb hbb⟩
      have hl : ∀ ib ∈ (addFire st ⟨c.x + d.x * dist, c.y + d.y * dist⟩ fe).bombs.enum,
          ib ∈ B.enum := by
        intro ib hib
        rw [show (addFire st ⟨c.x + d.x * dist, c.y + d.y * dist⟩ fe).bombs = B
          from hwf.1] at hib
        exact hib
      obtain ⟨hca, hmarks⟩ := chainAt_stepOK B chain hB hchain
        ⟨c.x + d.x * dist, c.y + d.y * dist⟩ _ hl
        (addFire st ⟨c.x + d.x * dist, c.y + d.y * dist⟩ fe, det) hwf1
      have hstep : StepOK B (st, det)
          (chainAt chain ⟨c.x + d.x * dist, c.y + d.y * dist⟩
            (addFire st ⟨c.x + d.x * dist, c.y + d.y * dist⟩ fe).bombs.enum
            (addFire st ⟨c.x + d.x * dist, c.y + d.y * dist⟩ fe, det)) := by
        obtain ⟨hb2, hd2, hbo2, n2, hf2, hs2⟩ := hca
        refine ⟨hb2, hd2, hbo2,
          { pos := ⟨c.x + d.x * dist, c.y + d.y * dist⟩, expiresAt := fe } :: n2, ?_, ?_⟩
        · rw [hf2]
          simp [addFire]
        · intro f hf ib hib hnd
          rcases List.mem_cons.1 hf with rfl | hf2'
          · intro heq
            have hibpos : ib.2.pos = (⟨c.x + d.x * dist, c.y + d.y * dist⟩ : Position) :=
              heq.symm
            have hibl : ib ∈ (addFire st ⟨c.x + d.x * dist, c.y + d.y * dist⟩ fe).bombs.enum := by
              rw [show (addFire st ⟨c.x + d.x * dist, c.y + d.y * dist⟩ fe).bombs = B
                from hwf.1]
              exact hib
            exact hnd (hmarks ib hibl hibpos)
          · exact hs2 f hf2' ib hib hnd
      exact stepOK_trans B hstep (ih (dist + 1) _ (bombsWF_stepOK B hstep hwf))
    · -- HardWall: stop
      rw [if_pos (by simp [htile])]
      exact stepOK_rfl B _
    · -- SoftWall: destroy and stop
      rw [if_neg (by simp [htile]), if_pos (by simp [htile])]
      refine ⟨rfl, fun i hi => hi,
        fun p hp => boardGet_boardSet_empty st.board _ p hp,
        [{ pos := ⟨c.x + d.x * dist, c.y + d.y * dist⟩, expiresAt := fe }], rfl, ?_⟩
      intro f hf ib hib hnd heq
      have hf' : f = { pos := ⟨c.x + d.x * dist, c.y + d.y * dist⟩, expiresAt := fe } := by
        simpa using hf
      have hcell : boardGet st.board ib.2.pos = Tile.empty :=
        hwf.2.2 ib.2 (snd_mem_of_mem_enum hib)
      rw [hf'] at heq
      rw [← heq] at hcell
      rw [htile] at hcell
      cases hcell

theorem foldl_stepOK (B : List Bomb) {β : Type}
    (f : GameState × List Nat → β → GameState × List Nat)
    (hf : ∀ sd x, BombsWF B sd.1 → StepOK B sd (f sd x)) :
    ∀ (l : List β) (sd : GameState × List Nat), BombsWF B sd.1 →
      StepOK B sd (l.foldl f sd) := by
  intro l
  induction l with
  | nil => intro sd _; exact stepOK_rfl B sd
  | cons x rest ih =>
    intro sd hwf
    rw [List.foldl_cons]
    have h1 := hf sd x hwf
    exact stepOK_trans B h1 (ih _ (bombsWF_stepOK B h1 hwf))

theorem explodeFuel_stepOK (B : List Bomb)
    (hB : B.Pairwise (fun a b => a.pos ≠ b.pos)) :
    ∀ (fuel : Nat) (now fireDur : Int) (bb : Bomb) (sd : GameState × List Nat),
      BombsWF B sd.1 →
      (∀ jb ∈ B.enum, jb.2.pos = bb.pos → jb.1 ∈ sd.2) →
      StepOK B sd (explodeFuel fuel now fireDur bb sd) := by
  intro fuel
  induction fuel with
  | zero => intro _ _ _ sd _ _; exact stepOK_rfl B sd
  | succ n ih =>
    intro now fireDur bb sd hwf hentry
    simp only [explodeFuel]
    have h1 : StepOK B sd (addFire sd.1 bb.pos (now + fireDur), sd.2) := by
      refine ⟨rfl, fun i hi => hi, fun p hp => hp,
        [{ pos := bb.pos, expiresAt := now + fireDur }], rfl, ?_⟩
      intro f hf ib hib hnd heq
      have hf' : f = { pos := bb.pos, expiresAt := now + fireDur } := by simpa using hf
      rw [hf'] at heq
      exact hnd (hentry ib hib heq.symm)
    have h2 := foldl_stepOK B
      (fun sd' d => walkDir (fun b s => explodeFuel n now fireDur b s) bb.pos d
        (now + fireDur) bb.range.toNat 1 sd')
      (fun sd' d hwf' => walkDir_stepOK B (fun b s => explodeFuel n now fireDur b s) hB
        (fun bb' sd'' hwf'' hentry'' => ih now fireDur bb' sd'' hwf'' hentry'')
        bb.pos d (now + fireDur) bb.range.toNat 1 sd' hwf')
      [⟨0, -1⟩, ⟨0, 1⟩, ⟨-1, 0⟩, ⟨1, 0⟩]
      (addFire sd.1 bb.pos (now + fireDur), sd.2) (bombsWF_stepOK B h1 hwf)
    refine stepOK_trans B (stepOK_trans B h1 h2) ⟨rfl, fun i hi => hi, fun p hp => hp,
      [], by simp [damagePlayersInFire], ?_⟩
    intro f hf
    exact absurd hf (List.not_mem_nil f)

theorem fold_detonate_stepOK (B : List Bomb)
    (hB : B.Pairwise (fun a b => a.pos ≠ b.pos)) (now fireDur : Int) :
    ∀ (l : List Nat) (sd : GameState × List Nat), BombsWF B sd.1 →
      (∀ i ∈ l, i ∈ sd.2) →
      StepOK B sd (l.foldl (detonateStep now fireDur) sd) := by
  intro l
  induction l with
  | nil => intro sd _ _; exact stepOK_rfl B sd
  | cons i rest ih =>
    intro sd hwf hl
    rw [List.foldl_cons]
    have hstep : StepOK B sd (detonateStep now fireDur sd i) := by
      unfold detonateStep
      rcases hget : sd.1.bombs.get? i with _ | b
      · exact stepOK_rfl B sd
      · have hmem : (i, b) ∈ B.enum := by
          rw [hwf.1] at hget
          exact List.mk_mem_enum_iff_getElem?.2 (by rw [← List.get?_eq_getElem?]; exact hget)
        have hentry : ∀ jb ∈ B.enum, jb.2.pos = b.pos → jb.1 ∈ sd.2 := by
          intro jb hjb hjpos
          have hji : jb.1 = i := enum_pos_inj B hB hjb hmem hjpos
          rw [hji]
          exact hl i (List.mem_cons_self _ _)
        exact explodeFuel_stepOK B hB _ now fireDur b sd hwf hentry
    exact stepOK_trans B hstep (ih _ (bombsWF_stepOK B hstep hwf)
      (fun j hj => hstep.2.1 j (hl j (List.mem_cons_of_mem _ hj))))

/-- C4: during one tick's detonation pass, every bomb whose position is hit
by a fire tile produced in this pass is itself detonated and removed by this
same pass — with no condition on its own fuse, so a chained bomb never waits
for its own expiry.  Hypotheses: no two bombs share a tile and bombs sit on
Empty cells (reachable-state invariants per spec §3/§7). -/
theorem tickBombs_chain (now fireDur : Int) (st : GameState)
    (hpair : st.bombs.Pairwise (fun a b => a.pos ≠ b.pos))
    (hemp : ∀ bb ∈ st.bombs, boardGet st.board bb.pos = Tile.empty) :
    ∀ bb ∈ st.bombs,
      (∃ f ∈ (tickBombs now fireDur st).fires.drop st.fires.length, f.pos = bb.pos) →
      ¬ bb ∈ (tickBombs now fireDur st).bombs := by
  intro bb hbb hfire hmem
  obtain ⟨f, hf, hfpos⟩ := hfire
  simp only [tickBombs] at hf hmem
  set d0 := (st.bombs.enum.filter (fun ib => now > ib.2.expiresAt)).map (fun ib => ib.1)
    with hd0
  set sd := d0.foldl (detonateStep now fireDur) (st, d0) with hsd
  have hstep := fold_detonate_stepOK st.bombs hpair now fireDur d0 (st, d0)
    ⟨rfl, hpair, hemp⟩ (fun i hi => hi)
  rw [← hsd] at hstep
  obtain ⟨hb1, hd1, hbo1, new, hfeq, hsafe⟩ := hstep
  rw [hfeq] at hf
  rw [show ((st, d0).1.fires : List Fire) = st.fires from rfl, List.drop_left] at hf
  obtain ⟨ib, hibf, hibeq⟩ := List.mem_map.1 hmem
  have hibl : ib ∈ sd.1.bombs.enum := (List.mem_filter.1 hibf).1
  have hibnd : ¬ ib.1 ∈ sd.2 := by
    have h2 := (List.mem_filter.1 hibf).2
    simpa using h2
  have hibB : ib ∈ st.bombs.enum := by
    rw [show sd.1.bombs = st.bombs from hb1] at hibl
    exact hibl
  exact hsafe f hf ib hibB hibnd (by rw [hfpos, hibeq])

/-- Witness for C4: `bombB4`'s fuse has not expired at `now = 10`, yet
`bombA4`'s blast reaches its tile and it is removed within the same tick. -/
theorem tickBombs_chain_witness :
    (10 : Int) < bombB4.expiresAt
    ∧ ¬ bombB4 ∈ (tickBombs 10 500 stC4).bombs := by
  refine ⟨by decide, tickBombs_chain 10 500 stC4 (by decide) (by decide) bombB4
    (by decide) ?_⟩
  exact ⟨{ pos := ⟨5, 3⟩, expiresAt := 510 }, by decide, rfl⟩

/-! ### Board generation (C9) -/

theorem getD_range_map {α : Type} (n : Nat) (f : Nat → α) (i : Nat) (d : α) (h : i < n) :
    ((List.range n).map f).getD i d = f i := by
  have hl : i < ((List.range n).map f).length := by simpa using h
  rw [List.getD_eq_getElem _ _ hl]
  simp

/-- C9: for every configuration and every sequence of random draws, the
generated board has HardWall at every border cell and at every even/even
interior cell, never a SoftWall on the safe set (the four spawn corners and
their orthogonal neighbours), and every other interior cell is Empty or
SoftWall. -/
theorem NewBoard_spec (cfg : GameConfig) (draw : Position → Rat) (x y : Int)
    (hx0 : 0 ≤ x) (hxw : x < cfg.width) (hy0 : 0 ≤ y) (hyh : y < cfg.height) :
    ((x = 0 ∨ y = 0 ∨ x = cfg.width - 1 ∨ y = cfg.height - 1) →
        boardGet (NewBoard cfg draw) ⟨x, y⟩ = Tile.hardWall)
    ∧ (¬(x = 0 ∨ y = 0 ∨ x = cfg.width - 1 ∨ y = cfg.height - 1) →
        x % 2 = 0 → y % 2 = 0 →
        boardGet (NewBoard cfg draw) ⟨x, y⟩ = Tile.hardWall)
    ∧ ((⟨x, y⟩ : Position) ∈ makeSafeSet (SpawnPositions cfg.width cfg.height) →
        boardGet (NewBoard cfg draw) ⟨x, y⟩ ≠ Tile.softWall)
    ∧ (¬(x = 0 ∨ y = 0 ∨ x = cfg.width - 1 ∨ y = cfg.height - 1) →
        ¬(x % 2 = 0 ∧ y % 2 = 0) →
        boardGet (NewBoard cfg draw) ⟨x, y⟩ = Tile.empty
        ∨ boardGet (NewBoard cfg draw) ⟨x, y⟩ = Tile.softWall) := by
  have hget : boardGet (NewBoard cfg draw) ⟨x, y⟩ =
      (if 1 ≤ x ∧ x ≤ cfg.width - 2 ∧ 1 ≤ y ∧ y ≤ cfg.height - 2
          ∧ (if x = 0 ∨ y = 0 ∨ x = cfg.width - 1 ∨ y = cfg.height - 1 then Tile.hardWall
             else if x % 2 = 0 ∧ y % 2 = 0 then Tile.hardWall
             else Tile.empty) = Tile.empty
          ∧ ¬ (⟨x, y⟩ : Position) ∈ makeSafeSet (SpawnPositions cfg.width cfg.height)
          ∧ draw ⟨x, y⟩ < cfg.softWallDensity
       then Tile.softWall
       else if x = 0 ∨ y = 0 ∨ x = cfg.width - 1 ∨ y = cfg.height - 1 then Tile.hardWall
       else if x % 2 = 0 ∧ y % 2 = 0 then Tile.hardWall
       else Tile.empty) := by
    unfold boardGet NewBoard
    dsimp only
    rw [getD_range_map _ _ _ _ (by omega : y.toNat < cfg.height.toNat),
      getD_range_map _ _ _ _ (by omega : x.toNat < cfg.width.toNat)]
    simp only [Int.toNat_of_nonneg hx0, Int.toNat_of_nonneg hy0]
  refine ⟨?_, ?_, ?_, ?_⟩
  · intro hb
    rw [hget]
    simp [hb]
  · intro hb hx2 hy2
    rw [hget]
    simp [hb, hx2, hy2]
  · intro hsafe
    rw [hget]
    simp only [hsafe, not_true_eq_false, and_false, false_and, if_false]
    split_ifs <;> simp
  · intro hb hp
    rw [hget]
    by_cases hfill : 1 ≤ x ∧ x ≤ cfg.width - 2 ∧ 1 ≤ y ∧ y ≤ cfg.height - 2
        ∧ (if x = 0 ∨ y = 0 ∨ x = cfg.width - 1 ∨ y = cfg.height - 1 then Tile.hardWall
           else if x % 2 = 0 ∧ y % 2 = 0 then Tile.hardWall
           else Tile.empty) = Tile.empty
        ∧ ¬ (⟨x, y⟩ : Position) ∈ makeSafeSet (SpawnPositions cfg.width cfg.height)
        ∧ draw ⟨x, y⟩ < cfg.softWallDensity
    · rw [if_pos hfill]
      exact Or.inr rfl
    · rw [if_neg hfill, if_neg hb, if_neg hp]
      exact Or.inl rfl

/-- Witness for C9 on the default configuration: border (0,5) and pillar
(2,2) are HardWall, the spawn corner (1,1) is not SoftWall, and the interior
non-pillar cell (5,3) is Empty or SoftWall. -/
theorem NewBoard_spec_witness :
    boardGet (NewBoard cfgW (fun _ => 1/2)) ⟨0, 5⟩ = Tile.hardWall
    ∧ boardGet (NewBoard cfgW (fun _ => 1/2)) ⟨2, 2⟩ = Tile.hardWall
    ∧ boardGet (NewBoard cfgW (fun _ => 1/2)) ⟨1, 1⟩ ≠ Tile.softWall
    ∧ (boardGet (NewBoard cfgW (fun _ => 1/2)) ⟨5, 3⟩ = Tile.empty
       ∨ boardGet (NewBoard cfgW (fun _ => 1/2)) ⟨5, 3⟩ = Tile.softWall) := by
  refine ⟨(NewBoard_spec cfgW _ 0 5 (by decide) (by decide) (by decide) (by decide)).1
      (by decide),
    (NewBoard_spec cfgW _ 2 2 (by decide) (by decide) (by decide) (by decide)).2.1
      (by decide) (by decide) (by decide),
    (NewBoard_spec cfgW _ 1 1 (by decide) (by decide) (by decide) (by decide)).2.2.1
      (by decide),
    (NewBoard_spec cfgW _ 5 3 (by decide) (by decide) (by decide) (by decide)).2.2.2
      (by decide) (by decide)⟩

/-! ### Protocol round-trip (C8) -/

theorem mapM_map_inv {α β : Type} (f : α → β) (g : β → Option α) :
    ∀ (l : List α), (∀ a ∈ l, g (f a) = some a) → (l.map f).mapM g = some l := by
  intro l
  induction l with
  | nil => intro _; rfl
  | cons a rest ih =>
    intro h
    rw [List.map_cons, List.mapM_cons, h a (List.mem_cons_self _ _),
      ih (fun b hb => h b (List.mem_cons_of_mem _ hb))]
    rfl

theorem tile_rt (t : Tile) : tileOfJson (tileToJson t) = some t := by
  cases t <;> rfl

theorem direction_rt (d : Direction) : directionOfJson (directionToJson d) = some d := by
  cases d <;> rfl

theorem actionType_rt (a : ActionType) : actionTypeOfJson (actionTypeToJson a) = some a := by
  cases a <;> rfl

theorem status_rt (s : GameStatus) : statusOfJson (statusToJson s) = some s := by
  cases s <;> rfl

theorem position_rt (p : Position) : positionOfJson (positionToJson p) = some p := by
  simp [positionToJson, positionOfJson, jlookup, intOfJson]

theorem player_rt (p : Player) : playerOfJson (playerToJson p) = some p := by
  simp [playerToJson, playerOfJson, jlookup, intOfJson, strOfJson, boolOfJson, position_rt]

theorem bomb_rt (b : Bomb) : bombOfJson (bombToJson b) = some b := by
  simp [bombToJson, bombOfJson, jlookup, intOfJson, strOfJson, position_rt]

theorem fire_rt (f : Fire) : fireOfJson (fireToJson f) = some f := by
  simp [fireToJson, fireOfJson, jlookup, intOfJson, position_rt]

theorem config_rt (c : GameConfig) : configOfJson (configToJson c) = some c := by
  simp [configToJson, configOfJson, jlookup, intOfJson, ratOfJson]

theorem board_rt (b : List (List Tile)) : boardOfJson (boardToJson b) = some b := by
  unfold boardToJson boardOfJson
  show listOfJson (listOfJson tileOfJson) (Json.arr (b.map fun row => Json.arr (row.map tileToJson))) = some b
  unfold listOfJson
  exact mapM_map_inv _ _ b (fun row _ => mapM_map_inv _ _ row (fun t _ => tile_rt t))

theorem bombs_rt (bs : List Bomb) : (bs.map bombToJson).mapM bombOfJson = some bs :=
  mapM_map_inv _ _ bs (fun b _ => bomb_rt b)

theorem fires_rt (fs : List Fire) : (fs.map fireToJson).mapM fireOfJson = some fs :=
  mapM_map_inv _ _ fs (fun f _ => fire_rt f)

theorem players_rt (ps : List (String × Player))
    (h : List.Pairwise (fun a b : String × Player => a.1 ≤ b.1) ps) :
    playersOfJson (playersToJson ps) = some ps := by
  unfold playersToJson playersOfJson
  rw [List.Sorted.insertionSort_eq h]
  exact mapM_map_inv _ _ ps (fun sp _ => by simp [player_rt])

theorem gameState_rt (st : GameState)
    (h : List.Pairwise (fun a b : String × Player => a.1 ≤ b.1) st.players) :
    gameStateOfJson (gameStateToJson st) = some st := by
  obtain ⟨bo, pl, bs, fs, w, ht, stt, wi⟩ := st
  simp only at h
  unfold gameStateToJson gameStateOfJson
  have hb : listOfJson bombOfJson (Json.arr (bs.map bombToJson)) = some bs := by
    show (bs.map bombToJson).mapM bombOfJson = some bs
    exact bombs_rt bs
  have hf : listOfJson fireOfJson (Json.arr (fs.map fireToJson)) = some fs := by
    show (fs.map fireToJson).mapM fireOfJson = some fs
    exact fires_rt fs
  by_cases hw : wi = ""
  · subst hw
    simp [jlookup, board_rt, players_rt pl h, hb, hf,
      intOfJson, strOfJson, status_rt]
  · simp only [if_neg hw]
    simp [jlookup, board_rt, players_rt pl h, hb, hf,
      intOfJson, strOfJson, status_rt]

theorem actionMsg_rt (m : ActionMsg) : actionMsgOfJson (actionMsgToJson m) = some m := by
  obtain ⟨a, d⟩ := m
  unfold actionMsgToJson actionMsgOfJson
  by_cases hd : d = Direction.up
  · subst hd
    simp [jlookup, actionType_rt]
  · simp only [if_neg hd]
    simp [jlookup, actionType_rt, direction_rt]

/-- C8: (1) decoding the envelope produced for any message yields the
original message, payload fields included (the player map in its canonical
key-sorted representation); (2) framing round-trips: a body within the 1 MiB
cap is returned exactly, leaving the rest of the stream untouched; (3) a
frame whose declared 4-byte big-endian length exceeds 1 MiB fails with the
decoder's "message too large" error. -/
theorem Encode_Decode_spec :
    (∀ m : Msg, MsgWF m → decodeMsg (marshalEnvelope m) = some m)
    ∧ (∀ (body extra : List Nat), body.length ≤ 2 ^ 20 →
        decodeFrame (encodeFrame body ++ extra) = Except.ok (body, extra))
    ∧ (∀ (b0 b1 b2 b3 : Nat) (rest : List Nat),
        b0 * 2 ^ 24 + b1 * 2 ^ 16 + b2 * 2 ^ 8 + b3 > 2 ^ 20 →
        decodeFrame (b0 :: b1 :: b2 :: b3 :: rest) = Except.error "message too large") := by
  refine ⟨?_, ?_, ?_⟩
  · intro m hwf
    cases m with
    | join jm => simp [decodeMsg, marshalEnvelope, msgType, marshalPayload, jlookup, strOfJson]
    | welcome wm =>
      simp [decodeMsg, marshalEnvelope, msgType, marshalPayload, jlookup, strOfJson, config_rt]
    | action am =>
      simp [decodeMsg, marshalEnvelope, msgType, marshalPayload, jlookup, strOfJson,
        actionMsg_rt]
    | state sm =>
      have hs : List.Pairwise (fun a b : String × Player => a.1 ≤ b.1) sm.state.players := hwf
      simp [decodeMsg, marshalEnvelope, msgType, marshalPayload, jlookup, strOfJson,
        gameState_rt sm.state hs]
    | error em => simp [decodeMsg, marshalEnvelope, msgType, marshalPayload, jlookup, strOfJson]
    | start => simp [decodeMsg, marshalEnvelope, msgType, marshalPayload, jlookup, strOfJson]
  · intro body extra hlen
    show decodeFrame (u32be (body.length % 2 ^ 32) ++ body ++ extra) = Except.ok (body, extra)
    have hmod : body.length % 2 ^ 32 = body.length := Nat.mod_eq_of_lt (by omega)
    rw [hmod]
    show decodeFrame (body.length / 2 ^ 24 % 256 :: body.length / 2 ^ 16 % 256 ::
      body.length / 2 ^ 8 % 256 :: body.length % 256 :: (body ++ extra)) = Except.ok (body, extra)
    simp only [decodeFrame]
    have hlen' : body.length / 2 ^ 24 % 256 * 2 ^ 24 + body.length / 2 ^ 16 % 256 * 2 ^ 16
        + body.length / 2 ^ 8 % 256 * 2 ^ 8 + body.length % 256 = body.length := by omega
    rw [hlen']
    rw [if_neg (by omega), if_neg (by simp only [List.length_append]; omega)]
    rw [List.take_left, List.drop_left]
  · intro b0 b1 b2 b3 rest h
    simp only [decodeFrame]
    rw [if_pos h]

/-- Witness for C8: a join message round-trips, a 3-byte body frames and
unframes around trailing stream data, and a header declaring 255·2²⁴ bytes
is rejected. -/
theorem Encode_Decode_spec_witness :
    decodeMsg (marshalEnvelope (Msg.join { name := "Alice" }))
      = some (Msg.join { name := "Alice" })
    ∧ decodeFrame (encodeFrame [1, 2, 3] ++ [9]) = Except.ok ([1, 2, 3], [9])
    ∧ decodeFrame [255, 0, 0, 0] = Except.error "message too large" :=
  ⟨Encode_Decode_spec.1 (Msg.join { name := "Alice" }) trivial,
   Encode_Decode_spec.2.1 [1, 2, 3] [9] (by decide),
   Encode_Decode_spec.2.2 255 0 0 0 [] (by decide)⟩

end Bomberman
